import Mathlib

/-!
# Interrupt-driven lifecycle state machine (`src/instr/interrupt/int.c`)

A shallow embedding of the trap handler and the foreground loop of the
bare-metal control program: the globals `current_state` and `work_timer`, the
machine CSRs the handler touches, and the stream of stores to the
memory-mapped UART.

Machine words are natural numbers; 32-bit wrap-around is written `% 2 ^ 32`
where the C code performs `uint32_t` arithmetic, and the store of a `char`
to the UART data register is written `% 256`.
-/

namespace Interrupt

/-- The enum `system_state_t`. -/
inductive system_state_t where
  | STATE_RUNNING
  | STATE_PAUSED
  | STATE_SHUTDOWN
  deriving DecidableEq

open system_state_t

def CAUSE_TIMER_INTERRUPT : Nat := 0x80000007
def CAUSE_EXTERNAL_INTERRUPT : Nat := 0x8000000B
def CAUSE_ECALL : Nat := 11
def SYS_EXIT : Nat := 93

/-- Address of the UART transmit register written by `uart_putchar`. -/
def UART_TX : Nat := 0xF004
/-- Address of the UART clear register written at the start of `uart_puts`. -/
def UART_CLEAR : Nat := 0xF00C

/-- The machine state the program reads and writes: the two globals, the
CSRs `mstatus`, `mie`, `mtvec`, `mepc`, and the ordered log of byte stores
`(address, value)` made to the memory-mapped UART. -/
structure State where
  current_state : system_state_t
  work_timer : Nat
  mstatus : Nat
  mie : Nat
  mtvec : Nat
  mepc : Nat
  uart_log : List (Nat × Nat)
  deriving DecidableEq

/-- What the hardware presents to one run of the handler: the `mcause` CSR
and the argument registers `a7` and `a0` (32-bit registers on RV32, so the
conversion of each to `uint32_t` is the identity). -/
structure Trap where
  mcause : Nat
  a7 : Nat
  a0 : Nat
  deriving DecidableEq

/-- The bytes of a C string literal (without its terminating NUL). -/
def cstr (lit : String) : List Nat :=
  lit.toList.map Char.toNat

/-- The macro `set_csr(reg, bit)`: instruction `csrrs zero, reg, bit`. -/
def set_csr (reg bit : Nat) : Nat :=
  reg ||| bit

/-- The macro `clear_csr(reg, bit)`: instruction `csrrc zero, reg, bit`
on a 32-bit CSR, `reg & ~bit`. -/
def clear_csr (reg bit : Nat) : Nat :=
  reg &&& (0xFFFFFFFF ^^^ bit)

/-- The function `uart_putchar`: `*uart_tx = (unsigned char)c`. -/
def uart_putchar (c : Nat) (s : State) : State :=
  { s with uart_log := s.uart_log ++ [(UART_TX, c % 256)] }

/-- The loop `while (*ptr) { uart_putchar(*ptr); ptr++; }` of `uart_puts`,
over the bytes of the string; it stops at the first NUL byte. -/
def uart_puts_loop : List Nat → State → State
  | [], s => s
  | c :: cs, s => if c = 0 then s else uart_puts_loop cs (uart_putchar c s)

/-- The function `uart_puts`: `*uart_clear = 1`, then the transmit loop. -/
def uart_puts (str : List Nat) (s : State) : State :=
  uart_puts_loop str { s with uart_log := s.uart_log ++ [(UART_CLEAR, 1)] }

/-- The function `handle_syscall`, with the values of registers `a7` and
`a0` at its entry. -/
def handle_syscall (a7 a0 : Nat) (s : State) : State :=
  let syscall_num := a7
  let arg0 := a0
  if syscall_num = SYS_EXIT then
    let s1 := uart_puts (cstr "OFF ") s
    let s2 := uart_putchar ((arg0 + 48) % 2 ^ 32) s1
    { s2 with current_state := STATE_SHUTDOWN }
  else
    uart_puts (cstr "UNKWN SYS") s

/-- The function `interrupt_handler`, run on one trap. -/
def interrupt_handler (t : Trap) (s : State) : State :=
  let cause := t.mcause
  if cause = CAUSE_TIMER_INTERRUPT then
    { s with work_timer := (s.work_timer + 1) % 2 ^ 32 }
  else if cause = CAUSE_EXTERNAL_INTERRUPT then
    if s.current_state = STATE_RUNNING then
      let s1 := { s with current_state := STATE_PAUSED }
      let s2 := uart_puts (cstr "PAUSE") s1
      { s2 with mie := clear_csr s2.mie (1 <<< 7) }
    else if s.current_state = STATE_PAUSED then
      let s1 := { s with current_state := STATE_RUNNING }
      let s2 := uart_puts (cstr "JOB ") s1
      let s3 := uart_putchar ((s2.work_timer + 48) % 2 ^ 32) s2
      { s3 with mie := set_csr s3.mie (1 <<< 7) }
    else s
  else if cause = CAUSE_ECALL then
    let s1 := handle_syscall t.a7 t.a0 s
    let mepc := s1.mepc
    { s1 with mepc := (mepc + 4) % 2 ^ 32 }
  else s

/-- The function `init_interrupts`; `handler_addr` is the address of
`interrupt_handler` written to `mtvec`. -/
def init_interrupts (handler_addr : Nat) (s : State) : State :=
  let s1 := { s with mtvec := handler_addr % 2 ^ 32 }
  let s2 := { s1 with mie := (1 <<< 7) ||| (1 <<< 11) }
  { s2 with mstatus := 1 <<< 3 }

/-- The state at program start, before `main` runs: the globals hold their
initialisers (`STATE_RUNNING`, `0`); the CSRs hold whatever reset left in
them and nothing has been stored to the UART. -/
def boot (mstatus mie mtvec mepc : Nat) : State :=
  { current_state := STATE_RUNNING, work_timer := 0, mstatus := mstatus,
    mie := mie, mtvec := mtvec, mepc := mepc, uart_log := [] }

/-- The state right after `init_interrupts()` returns in `main`. -/
def post_init (handler_addr mepc : Nat) : State :=
  init_interrupts handler_addr (boot 0 0 0 mepc)

/-- The handler run on a finite sequence of traps, first trap first. -/
def run_traps (ts : List Trap) (s : State) : State :=
  ts.foldl (fun acc t => interrupt_handler t acc) s

/-- The byte stream transmitted so far: the values stored to `UART_TX`. -/
def uart_output (s : State) : List Nat :=
  (s.uart_log.filter (fun w => w.1 = UART_TX)).map Prod.snd

/-- The timer-interrupt enable bit, bit 7 of `mie`. -/
def timer_enabled (s : State) : Bool :=
  s.mie.testBit 7

def timer_trap : Trap := { mcause := CAUSE_TIMER_INTERRUPT, a7 := 0, a0 := 0 }
def external_trap : Trap := { mcause := CAUSE_EXTERNAL_INTERRUPT, a7 := 0, a0 := 0 }

/-- Number of timer-interrupt traps in a sequence. -/
def timer_count (ts : List Trap) : Nat :=
  (ts.filter (fun t => t.mcause = CAUSE_TIMER_INTERRUPT)).length

/-- Whether the hardware delivers trap `t` in state `s`: a timer interrupt is
taken only while bit 7 of `mie` is set; every other trap is taken. -/
def deliverable (t : Trap) (s : State) : Bool :=
  if t.mcause = CAUSE_TIMER_INTERRUPT then timer_enabled s else true

/-- The handler run on a sequence of traps each of which must be deliverable
when it arrives; `none` when some trap of the sequence cannot be delivered. -/
def run_delivered : List Trap → State → Option State
  | [], s => some s
  | t :: ts, s =>
    if deliverable t s then run_delivered ts (interrupt_handler t s) else none

/-- The relation between `current_state` and the timer-enable bit that every
handler run preserves: set while running, clear while paused. -/
def timer_gate (s : State) : Prop :=
  (s.current_state = STATE_RUNNING → timer_enabled s = true) ∧
  (s.current_state = STATE_PAUSED → timer_enabled s = false)

/-- The trap raised by the `ecall` of `exit(status)`: cause `CAUSE_ECALL`
with `a7 = SYS_EXIT` and `a0 = status`. -/
def exit_trap (status : Nat) : Trap :=
  { mcause := CAUSE_ECALL, a7 := SYS_EXIT, a0 := status }

/-- The function `exit`: it loads `a7` and `a0` and executes `ecall`; the
trap is serviced by `interrupt_handler` before `exit` returns. -/
def exit (status : Nat) (s : State) : State :=
  interrupt_handler (exit_trap status) s

/-- What one pass through the body of `while (1)` in `main` leaves behind:
the machine state, the local `last_work_time`, the system call it issued (if
any) and whether it left the loop through `break`. -/
structure Iteration where
  st : State
  last_work_time : Nat
  ecall : Option Trap
  left_loop : Bool
  deriving DecidableEq

/-- One iteration of the foreground loop of `main`, run without a trap
arriving in its middle. The busy-wait loops only touch a local counter. -/
def main_iteration (s : State) (last_work_time : Nat) : Iteration :=
  if s.current_state = STATE_RUNNING then
    let reported : State × Nat :=
      if s.work_timer ≠ last_work_time then
        (uart_putchar ((s.work_timer + 48) % 2 ^ 32) (uart_puts (cstr "JOB ") s),
          s.work_timer)
      else (s, last_work_time)
    if reported.1.work_timer ≥ 6 then
      { st := exit 0 reported.1, last_work_time := reported.2,
        ecall := some (exit_trap 0), left_loop := false }
    else
      { st := reported.1, last_work_time := reported.2, ecall := none, left_loop := false }
  else if s.current_state = STATE_PAUSED then
    { st := s, last_work_time := last_work_time, ecall := none, left_loop := false }
  else if s.current_state = STATE_SHUTDOWN then
    { st := s, last_work_time := last_work_time, ecall := none, left_loop := true }
  else
    { st := s, last_work_time := last_work_time, ecall := none, left_loop := false }

/-- A step of the whole program: one foreground iteration, or one trap raised
from outside and handled by `interrupt_handler`. -/
inductive Event where
  | iteration
  | trap (t : Trap)
  deriving DecidableEq

/-- The program between steps: machine state, the local `last_work_time` of
`main`, the system calls `main` has issued so far, and whether `main` has left
its loop. -/
structure Sys where
  st : State
  last_work_time : Nat
  ecalls : List Trap
  left_loop : Bool
  deriving DecidableEq

/-- The program at the top of the loop of `main`, for the first time: after
`init_interrupts()`, `last_work_time = 0` and `uart_puts("HELLO")`. -/
def main_start (handler_addr mepc : Nat) : Sys :=
  { st := uart_puts (cstr "HELLO") (init_interrupts handler_addr (boot 0 0 0 mepc)),
    last_work_time := 0, ecalls := [], left_loop := false }

/-- One step of the program. Once `main` has left its loop there are no more
iterations; traps are still handled. -/
def sys_step (e : Event) (y : Sys) : Sys :=
  match e with
  | Event.trap t => { y with st := interrupt_handler t y.st }
  | Event.iteration =>
    if y.left_loop then y
    else
      let r := main_iteration y.st y.last_work_time
      { st := r.st, last_work_time := r.last_work_time,
        ecalls := y.ecalls ++ r.ecall.toList, left_loop := r.left_loop }

/-- The program run on a schedule of steps, first step first. -/
def sys_run (es : List Event) (y : Sys) : Sys :=
  es.foldl (fun acc e => sys_step e acc) y

/-- Number of externally raised traps in a schedule. -/
def trap_count (es : List Event) : Nat :=
  (es.filter (fun e => e ≠ Event.iteration)).length

/-- A schedule whose only externally raised traps are timer interrupts. -/
def timer_only (es : List Event) : Prop :=
  ∀ e ∈ es, e = Event.iteration ∨ ∃ t : Trap, e = Event.trap t ∧ t.mcause = CAUSE_TIMER_INTERRUPT

/-- The scenario schedule up to the first report: three timer traps, then
one foreground iteration. -/
def scenario_report : List Event :=
  [Event.trap timer_trap, Event.trap timer_trap, Event.trap timer_trap, Event.iteration]

/-- The scenario schedule up to the pause: one external trap more. -/
def scenario_pause : List Event :=
  scenario_report ++ [Event.trap external_trap]

/-- The scenario schedule up to the resume: a second external trap. -/
def scenario_resume : List Event :=
  scenario_pause ++ [Event.trap external_trap]

/-- The scenario schedule up to the sixth timer trap. -/
def scenario_six : List Event :=
  scenario_resume ++ [Event.trap timer_trap, Event.trap timer_trap, Event.trap timer_trap]

/-- The scenario schedule up to the self-termination of the loop. -/
def scenario_off : List Event :=
  scenario_six ++ [Event.iteration]

/-- The whole scenario schedule: one more iteration, which leaves the loop. -/
def scenario : List Event :=
  scenario_off ++ [Event.iteration]

end Interrupt

/-!
# Morse decoder (`src/instr/morse/morse.c`)

C strings are lists of byte values; reading at the end of the list yields the
terminating NUL, and so does an embedded `0`. Lengths and counts are natural
numbers (the `int` counters of the source do not overflow on strings that fit
in a 32-bit address space).
-/

namespace Morse

open Interrupt (cstr)

/-- The struct `MorseCode`: a letter and its code, a string of at most five
symbols held in `char morse[6]`. -/
structure MorseCode where
  letter : Nat
  morse : List Nat
  deriving DecidableEq

/-- A table entry written as in the source, `{'A', ".-"}`. -/
def entry (letter : Char) (morse : String) : MorseCode :=
  { letter := letter.toNat, morse := cstr morse }

/-- The table `morseTable`. -/
def morseTable : List MorseCode :=
  [entry 'A' ".-", entry 'B' "-...", entry 'C' "-.-.", entry 'D' "-..",
   entry 'E' ".", entry 'F' "..-.", entry 'G' "--.", entry 'H' "....",
   entry 'I' "..", entry 'J' ".---", entry 'K' "-.-", entry 'L' ".-..",
   entry 'M' "--", entry 'N' "-.", entry 'O' "---", entry 'P' ".--.",
   entry 'Q' "--.-", entry 'R' ".-.", entry 'S' "...", entry 'T' "-",
   entry 'U' "..-", entry 'V' "...-", entry 'W' ".--", entry 'X' "-..-",
   entry 'Y' "-.--", entry 'Z' "--..", entry '0' "-----", entry '1' ".----",
   entry '2' "..---", entry '3' "...--", entry '4' "....-", entry '5' ".....",
   entry '6' "-....", entry '7' "--...", entry '8' "---..", entry '9' "----."]

def MORSE_TABLE_SIZE : Nat := 36

/-- The character a pointer into a C string reads: the head of the remaining
bytes, or NUL at the end. -/
def cur (str : List Nat) : Nat :=
  str.headD 0

/-- The function `my_strlen`. -/
def my_strlen : List Nat → Nat
  | [] => 0
  | c :: cs => if c = 0 then 0 else my_strlen cs + 1

/-- The function `my_strcmp`: the difference of the first pair of differing
characters, or `0` when both strings end together. -/
def my_strcmp : List Nat → List Nat → Int
  | [], str2 => if (0 : Nat) ≠ cur str2 then (0 : Int) - (cur str2 : Int) else 0
  | c1 :: p1, str2 =>
    if c1 ≠ cur str2 then (c1 : Int) - (cur str2 : Int)
    else if c1 = 0 then 0
    else my_strcmp p1 str2.tail

/-- The loop of `morseToChar` over the entries from index `i` on. -/
def morseToChar_loop : List MorseCode → List Nat → Nat
  | [], _ => '?'.toNat
  | e :: es, morse => if my_strcmp morse e.morse = 0 then e.letter else morseToChar_loop es morse

/-- The function `morseToChar`. -/
def morseToChar (morse : List Nat) : Nat :=
  morseToChar_loop (morseTable.take MORSE_TABLE_SIZE) morse

/-- The loop `while (*in_ptr == ' ') in_ptr++`. -/
def skip_spaces : List Nat → List Nat
  | [] => []
  | c :: cs => if c = ' '.toNat then skip_spaces cs else c :: cs

/-- The token loop `while (token_idx < 7)`, with `room = 7 - token_idx`:
the characters copied and the input left. -/
def extract_token : Nat → List Nat → List Nat × List Nat
  | 0, inp => ([], inp)
  | _ + 1, [] => ([], [])
  | room + 1, c :: cs =>
    if c = ' '.toNat ∨ c = 0 then ([], c :: cs)
    else ((c :: (extract_token room cs).1), (extract_token room cs).2)

/-- The loop `while (*temp_ptr == ' ') { space_count++; temp_ptr++; }`. -/
def count_spaces : List Nat → Nat
  | [] => 0
  | c :: cs => if c = ' '.toNat then count_spaces cs + 1 else 0

/-- One pass through the outer loop of `decode_morse_message`, loop test
included: `none` when the loop ends (by its test or by `break`), otherwise the
input left and the characters written. -/
def decode_step (inp : List Nat) : Option (List Nat × List Nat) :=
  if cur inp = 0 then none
  else
    let inp1 := skip_spaces inp
    if cur inp1 = 0 then none
    else
      let token := (extract_token 7 inp1).1
      let inp2 := (extract_token 7 inp1).2
      if cur token = '/'.toNat then some (inp2, [' '.toNat])
      else
        let decoded := morseToChar token
        let space_count := count_spaces inp2
        if space_count > 1 then some (inp2, [decoded, ' '.toNat])
        else some (inp2, [decoded])

/-- The outer loop of `decode_morse_message`, bounded by `fuel` passes;
`none` when the fuel runs out before the loop ends. -/
def decode_loop : Nat → List Nat → List Nat → Option (List Nat)
  | 0, _, _ => none
  | fuel + 1, inp, out =>
    match decode_step inp with
    | none => some out
    | some (rest, written) => decode_loop fuel rest (out ++ written)

/-- The function `decode_morse_message`: the bytes written to `output`, the
terminating NUL included. -/
def decode_morse_message (input : List Nat) : Option (List Nat) :=
  (decode_loop (input.length + 1) input []).map (fun out => out ++ [0])

/-- The array `morse_input` of `main`. -/
def morse_input : List Nat :=
  cstr ".... . .-.. .-.. ---"

/-- The characters of a C string: the bytes before the first NUL. -/
def str_content (str : List Nat) : List Nat :=
  str.takeWhile (fun c => c ≠ 0)

/-- The letters of `morseTable`. -/
def table_letters : List Nat :=
  morseTable.map MorseCode.letter

/-- The code of a letter: the code of the first table entry with that letter
(empty for a letter that is not in the table). -/
def code_of (letter : Nat) : List Nat :=
  match morseTable.find? (fun e => e.letter = letter) with
  | some e => e.morse
  | none => []

/-- The Morse codes of the characters of a word, in order, separated by
single spaces. -/
def codes : List Nat → List Nat
  | [] => []
  | [c] => code_of c
  | c :: d :: w => code_of c ++ ' '.toNat :: codes (d :: w)

/-- A character the decoder can write: `A`-`Z`, `0`-`9`, a space or `?`. -/
def output_char (c : Nat) : Prop :=
  ('A'.toNat ≤ c ∧ c ≤ 'Z'.toNat) ∨ ('0'.toNat ≤ c ∧ c ≤ '9'.toNat) ∨
    c = ' '.toNat ∨ c = '?'.toNat

/-- The loop started on `inp` with `out` already written ends with `res`
written, given enough passes. -/
def Decodes (inp out res : List Nat) : Prop :=
  ∃ fuel : Nat, decode_loop fuel inp out = some res

/-- One when the string starts with two or more spaces, else zero. -/
def pending_space (str : List Nat) : Nat :=
  if 1 < count_spaces str then 1 else 0

end Morse

namespace Interrupt

open system_state_t

/-! ## Helper lemmas -/

theorem cstr_OFF : cstr "OFF " = [79, 70, 70, 32] := by decide
theorem cstr_UNKWN : cstr "UNKWN SYS" = [85, 78, 75, 87, 78, 32, 83, 89, 83] := by decide
theorem cstr_PAUSE : cstr "PAUSE" = [80, 65, 85, 83, 69] := by decide
theorem cstr_JOB : cstr "JOB " = [74, 79, 66, 32] := by decide

theorem byte_of_word (n : Nat) : n % 2 ^ 32 % 256 = n % 256 :=
  Nat.mod_mod_of_dvd n (by norm_num)

theorem run_traps_nil (s : State) : run_traps [] s = s := rfl

theorem run_traps_cons (t : Trap) (ts : List Trap) (s : State) :
    run_traps (t :: ts) s = run_traps ts (interrupt_handler t s) := rfl

theorem run_traps_append (ts us : List Trap) (s : State) :
    run_traps (ts ++ us) s = run_traps us (run_traps ts s) := by
  simp [run_traps, List.foldl_append]

/-- The effect of `handle_syscall` on the fields other than the UART log. -/
theorem handle_syscall_fields (a7 a0 : Nat) (s : State) :
    (handle_syscall a7 a0 s).current_state
        = (if a7 = SYS_EXIT then STATE_SHUTDOWN else s.current_state) ∧
    (handle_syscall a7 a0 s).work_timer = s.work_timer ∧
    (handle_syscall a7 a0 s).mie = s.mie ∧
    (handle_syscall a7 a0 s).mepc = s.mepc := by
  unfold handle_syscall
  by_cases h : a7 = SYS_EXIT <;>
    simp [h, uart_puts, uart_puts_loop, uart_putchar, cstr_OFF, cstr_UNKWN]

/-- The handler on a timer-interrupt cause. -/
theorem handler_timer (t : Trap) (s : State) (h : t.mcause = CAUSE_TIMER_INTERRUPT) :
    interrupt_handler t s = { s with work_timer := (s.work_timer + 1) % 2 ^ 32 } := by
  simp [interrupt_handler, h]

/-- The handler on an external-interrupt cause. -/
theorem handler_external (t : Trap) (s : State) (h : t.mcause = CAUSE_EXTERNAL_INTERRUPT) :
    interrupt_handler t s =
      if s.current_state = STATE_RUNNING then
        { uart_puts (cstr "PAUSE") { s with current_state := STATE_PAUSED } with
          mie := clear_csr (uart_puts (cstr "PAUSE")
            { s with current_state := STATE_PAUSED }).mie (1 <<< 7) }
      else if s.current_state = STATE_PAUSED then
        { uart_putchar ((s.work_timer + 48) % 2 ^ 32)
            (uart_puts (cstr "JOB ") { s with current_state := STATE_RUNNING }) with
          mie := set_csr s.mie (1 <<< 7) }
      else s := by
  have hne : CAUSE_EXTERNAL_INTERRUPT ≠ CAUSE_TIMER_INTERRUPT := by decide
  simp [interrupt_handler, h, hne, uart_puts, uart_puts_loop, uart_putchar, cstr_JOB]

/-- The handler on the environment-call cause. -/
theorem handler_ecall (t : Trap) (s : State) (h : t.mcause = CAUSE_ECALL) :
    interrupt_handler t s =
      { handle_syscall t.a7 t.a0 s with
        mepc := ((handle_syscall t.a7 t.a0 s).mepc + 4) % 2 ^ 32 } := by
  have h1 : CAUSE_ECALL ≠ CAUSE_TIMER_INTERRUPT := by decide
  have h2 : CAUSE_ECALL ≠ CAUSE_EXTERNAL_INTERRUPT := by decide
  simp [interrupt_handler, h, h1, h2]

/-- The handler on any other cause. -/
theorem handler_other (t : Trap) (s : State) (h1 : t.mcause ≠ CAUSE_TIMER_INTERRUPT)
    (h2 : t.mcause ≠ CAUSE_EXTERNAL_INTERRUPT) (h3 : t.mcause ≠ CAUSE_ECALL) :
    interrupt_handler t s = s := by
  simp [interrupt_handler, h1, h2, h3]

/-- One handler run never leaves `STATE_SHUTDOWN`. -/
theorem handler_keeps_shutdown (t : Trap) (s : State)
    (h : s.current_state = STATE_SHUTDOWN) :
    (interrupt_handler t s).current_state = STATE_SHUTDOWN := by
  by_cases h1 : t.mcause = CAUSE_TIMER_INTERRUPT
  · rw [handler_timer t s h1]; exact h
  · by_cases h2 : t.mcause = CAUSE_EXTERNAL_INTERRUPT
    · rw [handler_external t s h2]; simp [h]
    · by_cases h3 : t.mcause = CAUSE_ECALL
      · rw [handler_ecall t s h3]
        show (handle_syscall t.a7 t.a0 s).current_state = STATE_SHUTDOWN
        rw [(handle_syscall_fields t.a7 t.a0 s).1]
        split <;> simp [h]
      · rw [handler_other t s h1 h2 h3]; exact h

theorem run_keeps_shutdown (ts : List Trap) :
    ∀ s : State, s.current_state = STATE_SHUTDOWN →
      (run_traps ts s).current_state = STATE_SHUTDOWN := by
  induction ts with
  | nil => intro s h; exact h
  | cons t ts ih =>
    intro s h
    rw [run_traps_cons]
    exact ih _ (handler_keeps_shutdown t s h)

theorem clear_mask_bit7 : Nat.testBit 4294967167 7 = false := by decide

theorem set_mask_bit7 : Nat.testBit 128 7 = true := by decide

/-- An external trap taken in `STATE_RUNNING`: the pause branch. -/
theorem external_running (t : Trap) (s : State) (h : t.mcause = CAUSE_EXTERNAL_INTERRUPT)
    (hr : s.current_state = STATE_RUNNING) :
    (interrupt_handler t s).current_state = STATE_PAUSED ∧
    timer_enabled (interrupt_handler t s) = false ∧
    (interrupt_handler t s).work_timer = s.work_timer ∧
    (interrupt_handler t s).mepc = s.mepc ∧
    uart_output (interrupt_handler t s) = uart_output s ++ cstr "PAUSE" := by
  rw [handler_external t s h]
  simp [hr, timer_enabled, clear_csr, clear_mask_bit7, uart_puts, uart_puts_loop,
    uart_putchar, cstr_PAUSE, uart_output, UART_TX, UART_CLEAR, List.filter_cons]

/-- An external trap taken in `STATE_PAUSED`: the resume branch. -/
theorem external_paused (t : Trap) (s : State) (h : t.mcause = CAUSE_EXTERNAL_INTERRUPT)
    (hp : s.current_state = STATE_PAUSED) :
    (interrupt_handler t s).current_state = STATE_RUNNING ∧
    timer_enabled (interrupt_handler t s) = true ∧
    (interrupt_handler t s).work_timer = s.work_timer ∧
    (interrupt_handler t s).mepc = s.mepc := by
  rw [handler_external t s h]
  simp [hp, timer_enabled, set_csr, set_mask_bit7, uart_puts, uart_puts_loop,
    uart_putchar, cstr_JOB]

/-- An external trap taken in `STATE_SHUTDOWN` changes nothing. -/
theorem external_shutdown (t : Trap) (s : State) (h : t.mcause = CAUSE_EXTERNAL_INTERRUPT)
    (hd : s.current_state = STATE_SHUTDOWN) : interrupt_handler t s = s := by
  rw [handler_external t s h]
  simp [hd]

/-- The state reached from `STATE_RUNNING` after a run of external traps is
fixed by the parity of their number. -/
theorem toggle_parity (ts : List Trap) :
    (∀ t ∈ ts, t.mcause = CAUSE_EXTERNAL_INTERRUPT) → ∀ s : State,
      s.current_state = STATE_RUNNING →
      (run_traps ts s).current_state
        = if ts.length % 2 = 1 then STATE_PAUSED else STATE_RUNNING := by
  induction ts using List.reverseRecOn with
  | nil => intro _ s hs; simpa [run_traps_nil] using hs
  | append_singleton ts t ih =>
    intro hts s hs
    have hprev := ih (fun u hu => hts u (List.mem_append_left _ hu)) s hs
    have ht : t.mcause = CAUSE_EXTERNAL_INTERRUPT := hts t (by simp)
    rw [run_traps_append, run_traps_cons, run_traps_nil, List.length_append,
      List.length_singleton]
    by_cases hodd : ts.length % 2 = 1
    · rw [if_pos hodd] at hprev
      have hnext : ¬ (ts.length + 1) % 2 = 1 := by omega
      rw [if_neg hnext]
      exact (external_paused t _ ht hprev).1
    · rw [if_neg hodd] at hprev
      have hnext : (ts.length + 1) % 2 = 1 := by omega
      rw [if_pos hnext]
      exact (external_running t _ ht hprev).1

theorem timer_gate_handler (t : Trap) (s : State) (hg : timer_gate s) :
    timer_gate (interrupt_handler t s) := by
  by_cases h1 : t.mcause = CAUSE_TIMER_INTERRUPT
  · rw [handler_timer t s h1]; exact hg
  · by_cases h2 : t.mcause = CAUSE_EXTERNAL_INTERRUPT
    · cases hc : s.current_state with
      | STATE_RUNNING =>
        have h := external_running t s h2 hc
        exact ⟨fun hr => absurd (h.1.symm.trans hr) (by decide), fun _ => h.2.1⟩
      | STATE_PAUSED =>
        have h := external_paused t s h2 hc
        exact ⟨fun _ => h.2.1, fun hp => absurd (h.1.symm.trans hp) (by decide)⟩
      | STATE_SHUTDOWN =>
        rw [external_shutdown t s h2 hc]; exact hg
    · by_cases h3 : t.mcause = CAUSE_ECALL
      · have hf := handle_syscall_fields t.a7 t.a0 s
        rw [handler_ecall t s h3]
        unfold timer_gate timer_enabled
        show ((handle_syscall t.a7 t.a0 s).current_state = STATE_RUNNING →
            (handle_syscall t.a7 t.a0 s).mie.testBit 7 = true) ∧
          ((handle_syscall t.a7 t.a0 s).current_state = STATE_PAUSED →
            (handle_syscall t.a7 t.a0 s).mie.testBit 7 = false)
        rw [hf.1, hf.2.2.1]
        by_cases h93 : t.a7 = SYS_EXIT
        · simp [h93]
        · simpa [h93] using hg
      · rw [handler_other t s h1 h2 h3]; exact hg

theorem timer_gate_run (ts : List Trap) :
    ∀ s : State, timer_gate s → timer_gate (run_traps ts s) := by
  induction ts with
  | nil => intro s h; exact h
  | cons t ts ih =>
    intro s h
    rw [run_traps_cons]
    exact ih _ (timer_gate_handler t s h)

theorem timer_gate_post_init (handler_addr mepc : Nat) :
    timer_gate (post_init handler_addr mepc) := by
  constructor
  · intro _
    show Nat.testBit ((1 <<< 7) ||| (1 <<< 11)) 7 = true
    decide
  · intro h; cases h

/-- The work counter after one handler run. -/
theorem handler_work_timer (t : Trap) (s : State) :
    (interrupt_handler t s).work_timer
      = if t.mcause = CAUSE_TIMER_INTERRUPT then (s.work_timer + 1) % 2 ^ 32
        else s.work_timer := by
  by_cases h1 : t.mcause = CAUSE_TIMER_INTERRUPT
  · rw [handler_timer t s h1, if_pos h1]
  · rw [if_neg h1]
    by_cases h2 : t.mcause = CAUSE_EXTERNAL_INTERRUPT
    · cases hc : s.current_state with
      | STATE_RUNNING => exact (external_running t s h2 hc).2.2.1
      | STATE_PAUSED => exact (external_paused t s h2 hc).2.2.1
      | STATE_SHUTDOWN => rw [external_shutdown t s h2 hc]
    · by_cases h3 : t.mcause = CAUSE_ECALL
      · rw [handler_ecall t s h3]
        exact (handle_syscall_fields t.a7 t.a0 s).2.1
      · rw [handler_other t s h1 h2 h3]

/-- The interrupt-enable register after a handler run on a trap that is not
an external interrupt. -/
theorem handler_mie_of_not_external (t : Trap) (s : State)
    (h2 : t.mcause ≠ CAUSE_EXTERNAL_INTERRUPT) : (interrupt_handler t s).mie = s.mie := by
  by_cases h1 : t.mcause = CAUSE_TIMER_INTERRUPT
  · rw [handler_timer t s h1]
  · by_cases h3 : t.mcause = CAUSE_ECALL
    · rw [handler_ecall t s h3]
      exact (handle_syscall_fields t.a7 t.a0 s).2.2.1
    · rw [handler_other t s h1 h2 h3]

theorem timer_count_cons (t : Trap) (ts : List Trap) :
    timer_count (t :: ts)
      = (if t.mcause = CAUSE_TIMER_INTERRUPT then 1 else 0) + timer_count ts := by
  unfold timer_count
  by_cases h : t.mcause = CAUSE_TIMER_INTERRUPT
  · simp [List.filter_cons, h]; omega
  · simp [List.filter_cons, h]

theorem timer_count_append (ts us : List Trap) :
    timer_count (ts ++ us) = timer_count ts + timer_count us := by
  simp [timer_count, List.filter_append]

/-- While no wrap-around occurs, the work counter after a sequence of traps is
its value before plus the number of timer traps in the sequence. -/
theorem run_work_timer (ts : List Trap) :
    ∀ s : State, s.work_timer + timer_count ts < 2 ^ 32 →
      (run_traps ts s).work_timer = s.work_timer + timer_count ts := by
  induction ts with
  | nil => intro s _; simp [run_traps_nil, timer_count]
  | cons t ts ih =>
    intro s hb
    rw [timer_count_cons] at hb ⊢
    rw [run_traps_cons]
    have hw := handler_work_timer t s
    by_cases h : t.mcause = CAUSE_TIMER_INTERRUPT
    · rw [if_pos h] at hb hw ⊢
      have hlt : s.work_timer + 1 < 2 ^ 32 := by omega
      rw [Nat.mod_eq_of_lt hlt] at hw
      have := ih (interrupt_handler t s) (by rw [hw]; omega)
      rw [this, hw]; omega
    · rw [if_neg h] at hb hw ⊢
      have := ih (interrupt_handler t s) (by rw [hw]; omega)
      rw [this, hw]; omega

/-- A delivered run is a run of the handler. -/
theorem run_delivered_eq (ts : List Trap) :
    ∀ s s2 : State, run_delivered ts s = some s2 → s2 = run_traps ts s := by
  induction ts with
  | nil => intro s s2 h; simpa [run_delivered, run_traps_nil, eq_comm] using h
  | cons t ts ih =>
    intro s s2 h
    rw [run_traps_cons]
    by_cases hd : deliverable t s = true
    · rw [run_delivered, if_pos hd] at h
      exact ih _ _ h
    · rw [run_delivered, if_neg hd] at h
      cases h

/-- With the timer interrupt disabled, a delivered run without external traps
contains no timer trap, keeps the timer disabled and keeps the work counter. -/
theorem delivered_quiet (us : List Trap) :
    ∀ s s2 : State, timer_enabled s = false →
      (∀ u ∈ us, u.mcause ≠ CAUSE_EXTERNAL_INTERRUPT) →
      run_delivered us s = some s2 →
      (∀ u ∈ us, u.mcause ≠ CAUSE_TIMER_INTERRUPT) ∧
        s2.work_timer = s.work_timer ∧ timer_enabled s2 = false := by
  induction us with
  | nil =>
    intro s s2 hoff _ h
    have : s = s2 := by simpa [run_delivered] using h
    subst this
    exact ⟨fun u hu => absurd hu (List.not_mem_nil u), rfl, hoff⟩
  | cons t us ih =>
    intro s s2 hoff hne h
    have hte : t.mcause ≠ CAUSE_EXTERNAL_INTERRUPT := hne t (by simp)
    by_cases hd : deliverable t s = true
    · rw [run_delivered, if_pos hd] at h
      have htt : t.mcause ≠ CAUSE_TIMER_INTERRUPT := by
        intro htm
        rw [deliverable, if_pos htm, hoff] at hd
        cases hd
      have hm := handler_mie_of_not_external t s hte
      have hw := handler_work_timer t s
      rw [if_neg htt] at hw
      have hoff1 : timer_enabled (interrupt_handler t s) = false := by
        unfold timer_enabled at hoff ⊢
        rw [hm]; exact hoff
      have hrec := ih (interrupt_handler t s) s2 hoff1
        (fun u hu => hne u (List.mem_cons_of_mem _ hu)) h
      refine ⟨?_, hrec.2.1.trans hw, hrec.2.2⟩
      intro u hu
      rcases List.mem_cons.mp hu with rfl | hu1
      · exact htt
      · exact hrec.1 u hu1
    · rw [run_delivered, if_neg hd] at h
      cases h

theorem cstr_HELLO : cstr "HELLO" = [72, 69, 76, 76, 79] := by decide
theorem cstr_OFF0 : cstr "OFF 0" = [79, 70, 70, 32, 48] := by decide

/-- The resume branch appends `"JOB "` and the work-count byte. -/
theorem external_paused_output (t : Trap) (s : State)
    (h : t.mcause = CAUSE_EXTERNAL_INTERRUPT) (hp : s.current_state = STATE_PAUSED) :
    uart_output (interrupt_handler t s)
      = uart_output s ++ cstr "JOB " ++ [(s.work_timer + 48) % 256] := by
  rw [handler_external t s h]
  simp [hp, uart_puts, uart_puts_loop, uart_putchar, cstr_JOB, uart_output, UART_TX,
    UART_CLEAR, List.filter_cons]
  exact byte_of_word (s.work_timer + 48)

/-- The byte `n + '0'` is the ASCII decimal digit of `n` for `n ≤ 9`. -/
theorem digit_byte (n : Nat) (h : n ≤ 9) : (n + 48) % 256 = (Nat.digitChar n).toNat := by
  interval_cases n <;> decide

/-- The effect of `exit(0)`. -/
theorem exit_zero (s : State) :
    (exit 0 s).current_state = STATE_SHUTDOWN ∧
    (exit 0 s).work_timer = s.work_timer ∧
    (exit 0 s).mie = s.mie ∧
    uart_output (exit 0 s) = uart_output s ++ cstr "OFF 0" := by
  have hf := handle_syscall_fields SYS_EXIT 0 s
  unfold exit
  rw [handler_ecall (exit_trap 0) s rfl]
  refine ⟨?_, hf.2.1, hf.2.2.1, ?_⟩
  · show (handle_syscall SYS_EXIT 0 s).current_state = STATE_SHUTDOWN
    rw [hf.1, if_pos rfl]
  · show uart_output (handle_syscall SYS_EXIT 0 s) = _
    simp [handle_syscall, uart_puts, uart_puts_loop, uart_putchar, cstr_OFF, cstr_OFF0,
      uart_output, UART_TX, UART_CLEAR, List.filter_cons]

/-- One foreground iteration started in `STATE_RUNNING`. -/
theorem iteration_running (s : State) (last : Nat) (hr : s.current_state = STATE_RUNNING) :
    (main_iteration s last).last_work_time = s.work_timer ∧
    (main_iteration s last).left_loop = false ∧
    (main_iteration s last).st.work_timer = s.work_timer ∧
    (main_iteration s last).st.mie = s.mie ∧
    (main_iteration s last).st.current_state
      = (if 6 ≤ s.work_timer then STATE_SHUTDOWN else STATE_RUNNING) ∧
    (main_iteration s last).ecall
      = (if 6 ≤ s.work_timer then some (exit_trap 0) else none) ∧
    uart_output (main_iteration s last).st
      = uart_output s
        ++ (if s.work_timer ≠ last then cstr "JOB " ++ [(s.work_timer + 48) % 256] else [])
        ++ (if 6 ≤ s.work_timer then cstr "OFF 0" else []) := by
  have hjob : uart_output (uart_putchar ((s.work_timer + 48) % 2 ^ 32)
      (uart_puts (cstr "JOB ") s))
        = uart_output s ++ cstr "JOB " ++ [(s.work_timer + 48) % 256] := by
    simp [uart_puts, uart_puts_loop, uart_putchar, cstr_JOB, uart_output, UART_TX,
      UART_CLEAR, List.filter_cons]
    exact byte_of_word (s.work_timer + 48)
  have hjw : (uart_putchar ((s.work_timer + 48) % 2 ^ 32)
      (uart_puts (cstr "JOB ") s)).work_timer = s.work_timer := by
    simp [uart_puts, uart_puts_loop, uart_putchar, cstr_JOB]
  have hjm : (uart_putchar ((s.work_timer + 48) % 2 ^ 32)
      (uart_puts (cstr "JOB ") s)).mie = s.mie := by
    simp [uart_puts, uart_puts_loop, uart_putchar, cstr_JOB]
  have hjc : (uart_putchar ((s.work_timer + 48) % 2 ^ 32)
      (uart_puts (cstr "JOB ") s)).current_state = STATE_RUNNING := by
    simp [uart_puts, uart_puts_loop, uart_putchar, cstr_JOB, hr]
  by_cases hne : s.work_timer ≠ last
  · by_cases h6 : 6 ≤ s.work_timer
    · have he := exit_zero (uart_putchar ((s.work_timer + 48) % 2 ^ 32)
        (uart_puts (cstr "JOB ") s))
      have hm : main_iteration s last
          = { st := exit 0 (uart_putchar ((s.work_timer + 48) % 2 ^ 32)
                (uart_puts (cstr "JOB ") s)),
              last_work_time := s.work_timer, ecall := some (exit_trap 0),
              left_loop := false } := by
        unfold main_iteration
        rw [if_pos hr, if_pos hne, if_pos (by rw [hjw]; exact h6)]
      rw [hm]
      refine ⟨rfl, rfl, he.2.1.trans hjw, he.2.2.1.trans hjm, ?_, ?_, ?_⟩
      · rw [if_pos h6]; exact he.1
      · rw [if_pos h6]
      · rw [if_pos hne, if_pos h6]
        exact he.2.2.2.trans (by rw [hjob, List.append_assoc (uart_output s)])
    · have hm : main_iteration s last
          = { st := uart_putchar ((s.work_timer + 48) % 2 ^ 32) (uart_puts (cstr "JOB ") s),
              last_work_time := s.work_timer, ecall := none, left_loop := false } := by
        unfold main_iteration
        rw [if_pos hr, if_pos hne, if_neg (by rw [hjw]; exact h6)]
      rw [hm]
      refine ⟨rfl, rfl, hjw, hjm, ?_, ?_, ?_⟩
      · rw [if_neg h6]; exact hjc
      · rw [if_neg h6]
      · rw [if_pos hne, if_neg h6, List.append_nil]
        exact hjob.trans (List.append_assoc _ _ _)
  · have heq : s.work_timer = last := not_not.mp hne
    by_cases h6 : 6 ≤ s.work_timer
    · have he := exit_zero s
      have hm : main_iteration s last
          = { st := exit 0 s, last_work_time := last, ecall := some (exit_trap 0),
              left_loop := false } := by
        unfold main_iteration
        rw [if_pos hr, if_neg hne, if_pos (show s.work_timer ≥ 6 from h6)]
      rw [hm]
      refine ⟨heq.symm, rfl, he.2.1, he.2.2.1, ?_, ?_, ?_⟩
      · rw [if_pos h6]; exact he.1
      · rw [if_pos h6]
      · rw [if_neg hne, if_pos h6, List.append_nil]
        exact he.2.2.2
    · have hm : main_iteration s last
          = { st := s, last_work_time := last, ecall := none, left_loop := false } := by
        unfold main_iteration
        rw [if_pos hr, if_neg hne, if_neg (show ¬ s.work_timer ≥ 6 from h6)]
      rw [hm]
      refine ⟨heq.symm, rfl, rfl, rfl, ?_, ?_, ?_⟩
      · rw [if_neg h6]; exact hr
      · rw [if_neg h6]
      · rw [if_neg hne, if_neg h6, List.append_nil, List.append_nil]

/-- One foreground iteration started in `STATE_PAUSED` does nothing. -/
theorem iteration_paused (s : State) (last : Nat) (hp : s.current_state = STATE_PAUSED) :
    main_iteration s last
      = { st := s, last_work_time := last, ecall := none, left_loop := false } := by
  simp [main_iteration, hp]

/-- One foreground iteration started in `STATE_SHUTDOWN` leaves the loop. -/
theorem iteration_shutdown (s : State) (last : Nat) (hd : s.current_state = STATE_SHUTDOWN) :
    main_iteration s last
      = { st := s, last_work_time := last, ecall := none, left_loop := true } := by
  simp [main_iteration, hd]

theorem sys_run_nil (y : Sys) : sys_run [] y = y := rfl

theorem sys_run_cons (e : Event) (es : List Event) (y : Sys) :
    sys_run (e :: es) y = sys_run es (sys_step e y) := rfl

theorem sys_run_append (es fs : List Event) (y : Sys) :
    sys_run (es ++ fs) y = sys_run fs (sys_run es y) := by
  simp [sys_run, List.foldl_append]

theorem trap_count_iteration (es : List Event) :
    trap_count (Event.iteration :: es) = trap_count es := by
  simp [trap_count, List.filter_cons]

theorem trap_count_trap (t : Trap) (es : List Event) :
    trap_count (Event.trap t :: es) = trap_count es + 1 := by
  simp [trap_count, List.filter_cons]

/-- A foreground iteration never writes `mie`. -/
theorem iteration_mie (s : State) (last : Nat) : (main_iteration s last).st.mie = s.mie := by
  cases hc : s.current_state with
  | STATE_RUNNING => exact (iteration_running s last hc).2.2.2.1
  | STATE_PAUSED => rw [iteration_paused s last hc]
  | STATE_SHUTDOWN => rw [iteration_shutdown s last hc]

/-- A foreground iteration never writes `work_timer`. -/
theorem iteration_work_timer (s : State) (last : Nat) :
    (main_iteration s last).st.work_timer = s.work_timer := by
  cases hc : s.current_state with
  | STATE_RUNNING => exact (iteration_running s last hc).2.2.1
  | STATE_PAUSED => rw [iteration_paused s last hc]
  | STATE_SHUTDOWN => rw [iteration_shutdown s last hc]

theorem clear_mask_bits : ∀ i, i < 32 → i ≠ 7 → Nat.testBit 4294967167 i = true := by
  decide

theorem set_mask_bits : ∀ i, i < 32 → i ≠ 7 → Nat.testBit 128 i = false := by
  decide

/-- The handler leaves every bit of the 32-bit `mie` other than bit 7 alone. -/
theorem handler_mie_bits (t : Trap) (s : State) (i : Nat) (hi : i < 32) (h7 : i ≠ 7) :
    (interrupt_handler t s).mie.testBit i = s.mie.testBit i := by
  by_cases h2 : t.mcause = CAUSE_EXTERNAL_INTERRUPT
  · rw [handler_external t s h2]
    cases hc : s.current_state with
    | STATE_RUNNING =>
      simp [clear_csr, uart_puts, uart_puts_loop, uart_putchar, cstr_PAUSE,
        clear_mask_bits i hi h7]
    | STATE_PAUSED =>
      simp [set_csr, set_mask_bits i hi h7]
    | STATE_SHUTDOWN => simp
  · rw [handler_mie_of_not_external t s h2]

theorem sys_step_mie_bits (e : Event) (y : Sys) (i : Nat) (hi : i < 32) (h7 : i ≠ 7) :
    (sys_step e y).st.mie.testBit i = y.st.mie.testBit i := by
  cases e with
  | trap t => exact handler_mie_bits t y.st i hi h7
  | iteration =>
    unfold sys_step
    by_cases hl : y.left_loop = true
    · simp [hl]
    · simp [hl, iteration_mie]

theorem sys_run_mie_bits (es : List Event) (i : Nat) (hi : i < 32) (h7 : i ≠ 7) :
    ∀ y : Sys, (sys_run es y).st.mie.testBit i = y.st.mie.testBit i := by
  induction es with
  | nil => intro y; rfl
  | cons e es ih =>
    intro y
    rw [sys_run_cons, ih, sys_step_mie_bits e y i hi h7]

theorem run_traps_mie_bits (ts : List Trap) (i : Nat) (hi : i < 32) (h7 : i ≠ 7) :
    ∀ s : State, (run_traps ts s).mie.testBit i = s.mie.testBit i := by
  induction ts with
  | nil => intro s; rfl
  | cons t ts ih =>
    intro s
    rw [run_traps_cons, ih, handler_mie_bits t s i hi h7]

/-- While fewer than six timer traps have been taken and no other trap is
raised, the program stays in `STATE_RUNNING`, counts the timer traps and
`main` issues no system call. -/
theorem timer_only_run (es : List Event) :
    timer_only es → ∀ y : Sys, y.st.current_state = STATE_RUNNING → y.ecalls = [] →
      y.left_loop = false → y.st.work_timer + trap_count es < 6 →
      (sys_run es y).st.current_state = STATE_RUNNING ∧
      (sys_run es y).st.work_timer = y.st.work_timer + trap_count es ∧
      (sys_run es y).ecalls = [] ∧ (sys_run es y).left_loop = false := by
  induction es with
  | nil => intro _ y hr he hl _; exact ⟨hr, rfl, he, hl⟩
  | cons e es ih =>
    intro hes y hr he hl hb
    have htail : timer_only es := fun f hf => hes f (List.mem_cons_of_mem _ hf)
    rw [sys_run_cons]
    rcases hes e (List.mem_cons_self _ _) with rfl | ⟨t, rfl, ht⟩
    · rw [trap_count_iteration] at hb ⊢
      have hit := iteration_running y.st y.last_work_time hr
      have h6 : ¬ 6 ≤ y.st.work_timer := by omega
      simp only [if_neg h6] at hit
      have hstep : sys_step Event.iteration y
          = { st := (main_iteration y.st y.last_work_time).st,
              last_work_time := (main_iteration y.st y.last_work_time).last_work_time,
              ecalls := y.ecalls ++ (main_iteration y.st y.last_work_time).ecall.toList,
              left_loop := (main_iteration y.st y.last_work_time).left_loop } := by
        simp [sys_step, hl]
      have hrec := ih htail (sys_step Event.iteration y)
        (by rw [hstep]; exact hit.2.2.2.2.1)
        (by rw [hstep]; show y.ecalls ++ _ = []; rw [he, hit.2.2.2.2.2.1]; rfl)
        (by rw [hstep]; exact hit.2.1)
        (by rw [hstep]; show (main_iteration y.st y.last_work_time).st.work_timer + _ < 6
            rw [hit.2.2.1]; exact hb)
      refine ⟨hrec.1, ?_, hrec.2.2.1, hrec.2.2.2⟩
      rw [hrec.2.1, hstep]
      show (main_iteration y.st y.last_work_time).st.work_timer + _ = _
      rw [hit.2.2.1]
    · rw [trap_count_trap] at hb ⊢
      have hw : (interrupt_handler t y.st).work_timer = y.st.work_timer + 1 := by
        rw [handler_timer t y.st ht]
        exact Nat.mod_eq_of_lt (by omega)
      have hc : (interrupt_handler t y.st).current_state = STATE_RUNNING := by
        rw [handler_timer t y.st ht]; exact hr
      have hrec := ih htail (sys_step (Event.trap t) y) hc he hl
        (by show (interrupt_handler t y.st).work_timer + _ < 6; rw [hw]; omega)
      refine ⟨hrec.1, ?_, hrec.2.2.1, hrec.2.2.2⟩
      rw [hrec.2.1]
      show (interrupt_handler t y.st).work_timer + _ = _
      rw [hw]; omega

/-- The program at the top of the loop for the first time. -/
theorem main_start_fields (handler_addr mepc : Nat) :
    (main_start handler_addr mepc).st.current_state = STATE_RUNNING ∧
    (main_start handler_addr mepc).st.work_timer = 0 ∧
    (main_start handler_addr mepc).st.mie = 0x880 ∧
    uart_output (main_start handler_addr mepc).st = cstr "HELLO" := by
  simp [main_start, init_interrupts, boot, uart_puts, uart_puts_loop, uart_putchar,
    cstr_HELLO, uart_output, UART_TX, UART_CLEAR, List.filter_cons]

/-- In `STATE_SHUTDOWN` no trap writes `mie`. -/
theorem handler_mie_shutdown (t : Trap) (s : State)
    (hd : s.current_state = STATE_SHUTDOWN) : (interrupt_handler t s).mie = s.mie := by
  by_cases h2 : t.mcause = CAUSE_EXTERNAL_INTERRUPT
  · rw [external_shutdown t s h2 hd]
  · exact handler_mie_of_not_external t s h2

theorem run_mie_shutdown (ts : List Trap) :
    ∀ s : State, s.current_state = STATE_SHUTDOWN → (run_traps ts s).mie = s.mie := by
  induction ts with
  | nil => intro s _; rfl
  | cons t ts ih =>
    intro s hd
    rw [run_traps_cons, ih _ (handler_keeps_shutdown t s hd), handler_mie_shutdown t s hd]

/-! ## C1 -/

/-- C1: `STATE_SHUTDOWN` is terminal. From a state whose `current_state` is
`STATE_SHUTDOWN`, one run of `interrupt_handler` on any trap (any `mcause`,
`a7`, `a0`) leaves it `STATE_SHUTDOWN`, and so does any finite sequence of
traps; hence once a run has reached `STATE_SHUTDOWN`, every extension of
that run is in `STATE_SHUTDOWN` too. -/
theorem shutdown_is_terminal (s : State) (h : s.current_state = STATE_SHUTDOWN) :
    (∀ t : Trap, (interrupt_handler t s).current_state = STATE_SHUTDOWN) ∧
    (∀ ts : List Trap, (run_traps ts s).current_state = STATE_SHUTDOWN) ∧
    (∀ (s0 : State) (ts us : List Trap), run_traps ts s0 = s →
      (run_traps (ts ++ us) s0).current_state = STATE_SHUTDOWN) := by
  refine ⟨fun t => handler_keeps_shutdown t s h, fun ts => run_keeps_shutdown ts s h, ?_⟩
  intro s0 ts us hs
  rw [run_traps_append, hs]
  exact run_keeps_shutdown us s h

theorem shutdown_is_terminal_witness :
    (interrupt_handler ⟨CAUSE_ECALL, SYS_EXIT, 0⟩ (post_init 0 0)).current_state
        = STATE_SHUTDOWN ∧
    (run_traps [external_trap, timer_trap, ⟨CAUSE_ECALL, 7, 1⟩]
        (interrupt_handler ⟨CAUSE_ECALL, SYS_EXIT, 0⟩ (post_init 0 0))).current_state
        = STATE_SHUTDOWN :=
  ⟨by decide,
   (shutdown_is_terminal (interrupt_handler ⟨CAUSE_ECALL, SYS_EXIT, 0⟩ (post_init 0 0))
      (by decide)).2.1 [external_trap, timer_trap, ⟨CAUSE_ECALL, 7, 1⟩]⟩

/-! ## C2 -/

/-- C2: starting from `STATE_RUNNING`, after `n ≥ 1` consecutive
external-interrupt traps (`mcause = 0x8000000B`, any `a7` and `a0`) the state
is `STATE_PAUSED` when `n` is odd and `STATE_RUNNING` when `n` is even, and
bit 7 of `mie` is set exactly when the state is `STATE_RUNNING`. Since `n`
is arbitrary, this holds after each toggle of the sequence. -/
theorem external_toggle_alternates (ts : List Trap) (s : State)
    (hn : 1 ≤ ts.length) (hts : ∀ t ∈ ts, t.mcause = CAUSE_EXTERNAL_INTERRUPT)
    (hs : s.current_state = STATE_RUNNING) :
    (run_traps ts s).current_state
        = (if ts.length % 2 = 1 then STATE_PAUSED else STATE_RUNNING) ∧
    (timer_enabled (run_traps ts s) = true ↔
      (run_traps ts s).current_state = STATE_RUNNING) := by
  refine ⟨toggle_parity ts hts s hs, ?_⟩
  rcases List.eq_nil_or_concat ts with hnil | ⟨us, u, hcat⟩
  · subst hnil; simp at hn
  · subst hcat
    have hu : u.mcause = CAUSE_EXTERNAL_INTERRUPT := hts u (by simp)
    have hprev := toggle_parity us (fun v hv => hts v (by simp [hv])) s hs
    rw [List.concat_eq_append, run_traps_append, run_traps_cons, run_traps_nil]
    by_cases hodd : us.length % 2 = 1
    · rw [if_pos hodd] at hprev
      have h := external_paused u _ hu hprev
      simp [h.1, h.2.1]
    · rw [if_neg hodd] at hprev
      have h := external_running u _ hu hprev
      simp [h.1, h.2.1]

theorem external_toggle_alternates_witness :
    (run_traps [external_trap, ⟨CAUSE_EXTERNAL_INTERRUPT, 93, 5⟩, external_trap]
        (post_init 0 0)).current_state = STATE_PAUSED ∧
    (timer_enabled (run_traps [external_trap, ⟨CAUSE_EXTERNAL_INTERRUPT, 93, 5⟩,
        external_trap] (post_init 0 0)) = true ↔
      (run_traps [external_trap, ⟨CAUSE_EXTERNAL_INTERRUPT, 93, 5⟩, external_trap]
        (post_init 0 0)).current_state = STATE_RUNNING) :=
  external_toggle_alternates
    [external_trap, ⟨CAUSE_EXTERNAL_INTERRUPT, 93, 5⟩, external_trap] (post_init 0 0)
    (by decide) (by decide) (by decide)

/-! ## C3 -/

/-- C3 as stated fails: from the post-initialisation state, one ecall trap
with `a7 = 93` reaches `STATE_SHUTDOWN` while bit 7 of `mie` is still set, so
"timer enabled exactly when running" does not hold in every reachable state. -/
theorem timer_enabled_iff_running_fails :
    ¬ (∀ (ts : List Trap) (handler_addr mepc : Nat),
        timer_enabled (run_traps ts (post_init handler_addr mepc)) = true ↔
          (run_traps ts (post_init handler_addr mepc)).current_state = STATE_RUNNING) := by
  intro h
  have h1 := h [⟨CAUSE_ECALL, SYS_EXIT, 0⟩] 0 0
  revert h1
  decide

/-- C3 (amended): in every state reachable from the post-initialisation
state by a finite sequence of traps, if `current_state` is not
`STATE_SHUTDOWN` then bit 7 of `mie` is set exactly when `current_state` is
`STATE_RUNNING`. An ecall trap (the terminate call included) leaves `mie`
unchanged, and in `STATE_SHUTDOWN` every trap and every sequence of traps
leaves `mie` unchanged, so bit 7 keeps the value it had. -/
theorem timer_enabled_iff_running (ts : List Trap) (handler_addr mepc : Nat) :
    ((run_traps ts (post_init handler_addr mepc)).current_state ≠ STATE_SHUTDOWN →
      (timer_enabled (run_traps ts (post_init handler_addr mepc)) = true ↔
        (run_traps ts (post_init handler_addr mepc)).current_state = STATE_RUNNING)) ∧
    (∀ (t : Trap) (s : State), t.mcause = CAUSE_ECALL →
      (interrupt_handler t s).mie = s.mie ∧
      timer_enabled (interrupt_handler t s) = timer_enabled s) ∧
    (∀ (t : Trap) (s : State), s.current_state = STATE_SHUTDOWN →
      (interrupt_handler t s).mie = s.mie ∧
      timer_enabled (interrupt_handler t s) = timer_enabled s) ∧
    (∀ (us : List Trap) (s : State), s.current_state = STATE_SHUTDOWN →
      (run_traps us s).mie = s.mie ∧
      timer_enabled (run_traps us s) = timer_enabled s) := by
  have hg := timer_gate_run ts _ (timer_gate_post_init handler_addr mepc)
  refine ⟨?_, ?_, ?_, ?_⟩
  · intro hlive
    constructor
    · intro hen
      cases hc : (run_traps ts (post_init handler_addr mepc)).current_state with
      | STATE_RUNNING => rfl
      | STATE_PAUSED => rw [hg.2 hc] at hen; cases hen
      | STATE_SHUTDOWN => exact absurd hc hlive
    · exact hg.1
  · intro t s ht
    have hm := handler_mie_of_not_external t s (by rw [ht]; decide)
    exact ⟨hm, by unfold timer_enabled; rw [hm]⟩
  · intro t s hd
    have hm := handler_mie_shutdown t s hd
    exact ⟨hm, by unfold timer_enabled; rw [hm]⟩
  · intro us s hd
    have hm := run_mie_shutdown us s hd
    exact ⟨hm, by unfold timer_enabled; rw [hm]⟩

theorem timer_enabled_iff_running_witness :
    ((run_traps [timer_trap, external_trap, ⟨CAUSE_ECALL, 1, 2⟩] (post_init 0 0)).current_state
        ≠ STATE_SHUTDOWN ∧
      (timer_enabled (run_traps [timer_trap, external_trap, ⟨CAUSE_ECALL, 1, 2⟩]
          (post_init 0 0)) = true ↔
        (run_traps [timer_trap, external_trap, ⟨CAUSE_ECALL, 1, 2⟩]
          (post_init 0 0)).current_state = STATE_RUNNING)) ∧
    ((run_traps [⟨CAUSE_ECALL, SYS_EXIT, 0⟩] (post_init 0 0)).current_state = STATE_SHUTDOWN ∧
      (interrupt_handler external_trap
        (run_traps [⟨CAUSE_ECALL, SYS_EXIT, 0⟩] (post_init 0 0))).mie = 0x880 ∧
      timer_enabled (run_traps [timer_trap, external_trap, external_trap]
        (run_traps [external_trap, ⟨CAUSE_ECALL, SYS_EXIT, 0⟩] (post_init 0 0))) = false) :=
  ⟨⟨by decide,
    (timer_enabled_iff_running [timer_trap, external_trap, ⟨CAUSE_ECALL, 1, 2⟩] 0 0).1
      (by decide)⟩,
   by decide,
   (((timer_enabled_iff_running [] 0 0).2.2.1 external_trap
      (run_traps [⟨CAUSE_ECALL, SYS_EXIT, 0⟩] (post_init 0 0)) (by decide)).1).trans
      (by decide),
   (((timer_enabled_iff_running [] 0 0).2.2.2 [timer_trap, external_trap, external_trap]
      (run_traps [external_trap, ⟨CAUSE_ECALL, SYS_EXIT, 0⟩] (post_init 0 0))
      (by decide)).2).trans (by decide)⟩

/-! ## C4 -/

/-- C4: the terminate system call. For every prior state and every argument
`a0`, an ecall trap (`mcause = 11`) with `a7 = 93` leaves `current_state` at
`STATE_SHUTDOWN` and appends to the transmitted bytes exactly `"OFF "` and
one byte `(a0 + '0') mod 256`, which for `a0 ≤ 9` is the ASCII decimal digit
of `a0`; `work_timer` and `mie` are unchanged. -/
theorem terminate_syscall (t : Trap) (s : State) (hc : t.mcause = CAUSE_ECALL)
    (h7 : t.a7 = SYS_EXIT) :
    (interrupt_handler t s).current_state = STATE_SHUTDOWN ∧
    uart_output (interrupt_handler t s)
        = uart_output s ++ cstr "OFF " ++ [(t.a0 + 48) % 256] ∧
    (t.a0 ≤ 9 → (t.a0 + 48) % 256 = (Nat.digitChar t.a0).toNat) ∧
    (interrupt_handler t s).work_timer = s.work_timer ∧
    (interrupt_handler t s).mie = s.mie := by
  have hf := handle_syscall_fields t.a7 t.a0 s
  rw [handler_ecall t s hc]
  refine ⟨?_, ?_, ?_, hf.2.1, hf.2.2.1⟩
  · show (handle_syscall t.a7 t.a0 s).current_state = STATE_SHUTDOWN
    rw [hf.1, if_pos h7]
  · show uart_output (handle_syscall t.a7 t.a0 s) = _
    simp [handle_syscall, h7, uart_puts, uart_puts_loop, uart_putchar, cstr_OFF,
      uart_output, UART_TX, UART_CLEAR, List.filter_cons]
    exact byte_of_word (t.a0 + 48)
  · intro h9
    generalize t.a0 = n at h9
    interval_cases n <;> decide

theorem terminate_syscall_witness :
    (interrupt_handler ⟨CAUSE_ECALL, SYS_EXIT, 7⟩
        (run_traps [external_trap] (post_init 0 0))).current_state = STATE_SHUTDOWN ∧
    uart_output (interrupt_handler ⟨CAUSE_ECALL, SYS_EXIT, 7⟩
        (run_traps [external_trap] (post_init 0 0))) = cstr "PAUSEOFF 7" :=
  ⟨(terminate_syscall ⟨CAUSE_ECALL, SYS_EXIT, 7⟩
      (run_traps [external_trap] (post_init 0 0)) rfl rfl).1,
   by decide⟩

/-! ## C5 -/

/-- C5: an unsupported system call. For every `a7 ≠ 93`, every `a0` and every
prior state, an ecall trap appends to the transmitted bytes exactly
`"UNKWN SYS"`, leaves `current_state`, `work_timer` and `mie` unchanged, and
the handler returns with `mepc` advanced by 4 (32-bit arithmetic). -/
theorem unknown_syscall (t : Trap) (s : State) (hc : t.mcause = CAUSE_ECALL)
    (h7 : t.a7 ≠ SYS_EXIT) :
    uart_output (interrupt_handler t s) = uart_output s ++ cstr "UNKWN SYS" ∧
    (interrupt_handler t s).current_state = s.current_state ∧
    (interrupt_handler t s).work_timer = s.work_timer ∧
    (interrupt_handler t s).mie = s.mie ∧
    (interrupt_handler t s).mepc = (s.mepc + 4) % 2 ^ 32 := by
  have hf := handle_syscall_fields t.a7 t.a0 s
  rw [handler_ecall t s hc]
  refine ⟨?_, ?_, hf.2.1, hf.2.2.1, ?_⟩
  · show uart_output (handle_syscall t.a7 t.a0 s) = _
    simp [handle_syscall, h7, uart_puts, uart_puts_loop, uart_putchar, cstr_UNKWN,
      uart_output, UART_TX, UART_CLEAR, List.filter_cons]
  · show (handle_syscall t.a7 t.a0 s).current_state = s.current_state
    rw [hf.1, if_neg h7]
  · show ((handle_syscall t.a7 t.a0 s).mepc + 4) % 2 ^ 32 = _
    rw [hf.2.2.2]

theorem unknown_syscall_witness :
    uart_output (interrupt_handler ⟨CAUSE_ECALL, 64, 1⟩ (post_init 0 0xFFFFFFFC))
        = cstr "UNKWN SYS" ∧
    (interrupt_handler ⟨CAUSE_ECALL, 64, 1⟩ (post_init 0 0xFFFFFFFC)).current_state
        = STATE_RUNNING ∧
    (interrupt_handler ⟨CAUSE_ECALL, 64, 1⟩ (post_init 0 0xFFFFFFFC)).mepc = 0 :=
  ⟨(unknown_syscall ⟨CAUSE_ECALL, 64, 1⟩ (post_init 0 0xFFFFFFFC) rfl (by decide)).1,
   (unknown_syscall ⟨CAUSE_ECALL, 64, 1⟩ (post_init 0 0xFFFFFFFC) rfl (by decide)).2.1,
   (unknown_syscall ⟨CAUSE_ECALL, 64, 1⟩ (post_init 0 0xFFFFFFFC) rfl (by decide)).2.2.2.2⟩

/-! ## C6 -/

/-- C6 as stated fails: `work_timer` is a `uint32_t`, and a timer trap taken
when it holds `0xFFFFFFFF` wraps it to `0`, below its value before. -/
theorem work_timer_wraps :
    ({ post_init 0 0 with work_timer := 0xFFFFFFFF } : State).work_timer < 2 ^ 32 ∧
    ¬ (({ post_init 0 0 with work_timer := 0xFFFFFFFF } : State).work_timer
        ≤ (interrupt_handler timer_trap
            { post_init 0 0 with work_timer := 0xFFFFFFFF }).work_timer) := by
  decide

/-- C6 (amended): for every state and trap, `work_timer` changes only when
the cause is the timer interrupt; if `work_timer` is below `0xFFFFFFFF` its
value after the trap is at least its value before; and along every finite
sequence of traps in which the initial value plus the number of timer traps
stays below `2 ^ 32`, `work_timer` is non-decreasing from each point of the
sequence to each later one. -/
theorem work_timer_monotone (t : Trap) (s : State) :
    (t.mcause ≠ CAUSE_TIMER_INTERRUPT → (interrupt_handler t s).work_timer = s.work_timer) ∧
    (s.work_timer < 2 ^ 32 - 1 → s.work_timer ≤ (interrupt_handler t s).work_timer) ∧
    (∀ ts us : List Trap, s.work_timer + timer_count (ts ++ us) < 2 ^ 32 →
      (run_traps ts s).work_timer ≤ (run_traps (ts ++ us) s).work_timer) := by
  have hw := handler_work_timer t s
  refine ⟨?_, ?_, ?_⟩
  · intro h; rw [hw, if_neg h]
  · intro hlt
    rw [hw]
    split
    · rw [Nat.mod_eq_of_lt (by omega)]; omega
    · exact le_refl _
  · intro ts us hb
    rw [timer_count_append] at hb
    have h1 := run_work_timer ts s (by omega)
    rw [run_traps_append, run_work_timer us (run_traps ts s) (by rw [h1]; omega)]
    omega

theorem work_timer_monotone_witness :
    (post_init 0 0).work_timer ≤ (interrupt_handler timer_trap (post_init 0 0)).work_timer ∧
    (run_traps [timer_trap, external_trap] (post_init 0 0)).work_timer
      ≤ (run_traps ([timer_trap, external_trap] ++ [external_trap, timer_trap])
          (post_init 0 0)).work_timer :=
  ⟨(work_timer_monotone timer_trap (post_init 0 0)).2.1 (by decide),
   (work_timer_monotone timer_trap (post_init 0 0)).2.2
      [timer_trap, external_trap] [external_trap, timer_trap] (by decide)⟩

/-! ## C7 -/

/-- C7 as stated fails: in a running state whose `work_timer` is
`0xFFFFFFFF`, a timer trap leaves `work_timer = 0`, not one greater. -/
theorem timer_tick_wraps :
    ({ post_init 0 0 with work_timer := 0xFFFFFFFF } : State).current_state = STATE_RUNNING ∧
    (interrupt_handler timer_trap { post_init 0 0 with work_timer := 0xFFFFFFFF }).work_timer
      = 0 ∧
    (interrupt_handler timer_trap { post_init 0 0 with work_timer := 0xFFFFFFFF }).work_timer
      ≠ ({ post_init 0 0 with work_timer := 0xFFFFFFFF } : State).work_timer + 1 := by
  decide

/-- C7 (amended): in a state with `current_state = STATE_RUNNING`, one timer
trap makes `work_timer` one greater modulo `2 ^ 32` (exactly one greater
whenever it was below `0xFFFFFFFF`) and leaves `current_state`, `mie`,
`mepc` and the UART (its store log, hence the transmitted bytes) unchanged. -/
theorem timer_tick (t : Trap) (s : State) (hr : s.current_state = STATE_RUNNING)
    (ht : t.mcause = CAUSE_TIMER_INTERRUPT) :
    (interrupt_handler t s).work_timer = (s.work_timer + 1) % 2 ^ 32 ∧
    (s.work_timer < 2 ^ 32 - 1 → (interrupt_handler t s).work_timer = s.work_timer + 1) ∧
    (interrupt_handler t s).current_state = STATE_RUNNING ∧
    (interrupt_handler t s).mie = s.mie ∧
    (interrupt_handler t s).mepc = s.mepc ∧
    (interrupt_handler t s).uart_log = s.uart_log ∧
    uart_output (interrupt_handler t s) = uart_output s := by
  rw [handler_timer t s ht]
  refine ⟨rfl, ?_, hr, rfl, rfl, rfl, rfl⟩
  intro hlt
  show (s.work_timer + 1) % 2 ^ 32 = s.work_timer + 1
  exact Nat.mod_eq_of_lt (by omega)

theorem timer_tick_witness :
    (interrupt_handler timer_trap (run_traps [timer_trap, timer_trap] (post_init 0 0))).work_timer
      = 3 :=
  ((timer_tick timer_trap (run_traps [timer_trap, timer_trap] (post_init 0 0))
      (by decide) rfl).2.1 (by decide)).trans (by decide)

/-! ## C8 -/

/-- C8: return-address adjustment. On an ecall trap (`mcause = 11`), whatever
`a7` holds, the handler leaves `mepc` at its entry value plus 4 in 32-bit
arithmetic; on every other cause (timer, external, unrecognised) `mepc` is
unchanged. -/
theorem mepc_adjustment (t : Trap) (s : State) :
    (t.mcause = CAUSE_ECALL → (interrupt_handler t s).mepc = (s.mepc + 4) % 2 ^ 32) ∧
    (t.mcause ≠ CAUSE_ECALL → (interrupt_handler t s).mepc = s.mepc) := by
  constructor
  · intro h3
    rw [handler_ecall t s h3]
    show ((handle_syscall t.a7 t.a0 s).mepc + 4) % 2 ^ 32 = _
    rw [(handle_syscall_fields t.a7 t.a0 s).2.2.2]
  · intro h3
    by_cases h1 : t.mcause = CAUSE_TIMER_INTERRUPT
    · rw [handler_timer t s h1]
    · by_cases h2 : t.mcause = CAUSE_EXTERNAL_INTERRUPT
      · cases hc : s.current_state with
        | STATE_RUNNING => exact (external_running t s h2 hc).2.2.2.1
        | STATE_PAUSED => exact (external_paused t s h2 hc).2.2.2
        | STATE_SHUTDOWN => rw [external_shutdown t s h2 hc]
      · rw [handler_other t s h1 h2 h3]

theorem mepc_adjustment_witness :
    (interrupt_handler ⟨CAUSE_ECALL, SYS_EXIT, 0⟩ (post_init 0 0x100)).mepc = 0x104 ∧
    (interrupt_handler ⟨CAUSE_ECALL, 5, 0⟩ (post_init 0 0xFFFFFFFE)).mepc = 2 ∧
    (interrupt_handler external_trap (post_init 0 0x100)).mepc = 0x100 :=
  ⟨(mepc_adjustment ⟨CAUSE_ECALL, SYS_EXIT, 0⟩ (post_init 0 0x100)).1 rfl,
   (mepc_adjustment ⟨CAUSE_ECALL, 5, 0⟩ (post_init 0 0xFFFFFFFE)).1 rfl,
   (mepc_adjustment external_trap (post_init 0 0x100)).2 (by decide)⟩

/-! ## C9 -/

/-- C9: an unrecognised cause is silently ignored. For every `mcause` other
than `0x80000007`, `0x8000000B` and `11`, the handler returns the state it was
given: `current_state`, `work_timer`, `mie`, `mepc` are unchanged and nothing
is stored to the UART. -/
theorem unknown_cause_ignored (t : Trap) (s : State)
    (h1 : t.mcause ≠ CAUSE_TIMER_INTERRUPT) (h2 : t.mcause ≠ CAUSE_EXTERNAL_INTERRUPT)
    (h3 : t.mcause ≠ CAUSE_ECALL) :
    interrupt_handler t s = s ∧
    (interrupt_handler t s).current_state = s.current_state ∧
    (interrupt_handler t s).work_timer = s.work_timer ∧
    (interrupt_handler t s).mie = s.mie ∧
    (interrupt_handler t s).mepc = s.mepc ∧
    (interrupt_handler t s).uart_log = s.uart_log ∧
    uart_output (interrupt_handler t s) = uart_output s := by
  rw [handler_other t s h1 h2 h3]
  exact ⟨rfl, rfl, rfl, rfl, rfl, rfl, rfl⟩

theorem unknown_cause_ignored_witness :
    interrupt_handler ⟨0x80000003, SYS_EXIT, 1⟩ (run_traps [timer_trap] (post_init 0 8))
      = run_traps [timer_trap] (post_init 0 8) :=
  (unknown_cause_ignored ⟨0x80000003, SYS_EXIT, 1⟩ (run_traps [timer_trap] (post_init 0 8))
    (by decide) (by decide) (by decide)).1

/-! ## C10 -/

/-- C10: pause. (1) An external trap taken in `STATE_RUNNING` appends exactly
`"PAUSE"` to the transmitted bytes, sets `STATE_PAUSED` and clears bit 7 of
`mie`. (2) With timer traps delivered only while bit 7 of `mie` is set, every
state reachable from the post-initialisation state with `STATE_PAUSED` has
bit 7 clear, so no timer trap is deliverable in it. (3) After the pausing
external trap, every delivered run of traps up to the next external trap
contains no timer trap and ends with `work_timer` unchanged. -/
theorem pause_stops_timer :
    (∀ (t : Trap) (s : State), t.mcause = CAUSE_EXTERNAL_INTERRUPT →
      s.current_state = STATE_RUNNING →
        uart_output (interrupt_handler t s) = uart_output s ++ cstr "PAUSE" ∧
        (interrupt_handler t s).current_state = STATE_PAUSED ∧
        timer_enabled (interrupt_handler t s) = false) ∧
    (∀ (ts : List Trap) (handler_addr mepc : Nat) (s : State),
      run_delivered ts (post_init handler_addr mepc) = some s →
      s.current_state = STATE_PAUSED →
        timer_enabled s = false ∧
        ∀ u : Trap, u.mcause = CAUSE_TIMER_INTERRUPT → deliverable u s = false) ∧
    (∀ (ts : List Trap) (handler_addr mepc : Nat) (s : State) (t : Trap)
        (us : List Trap) (s2 : State),
      run_delivered ts (post_init handler_addr mepc) = some s →
      s.current_state = STATE_RUNNING →
      t.mcause = CAUSE_EXTERNAL_INTERRUPT →
      (∀ u ∈ us, u.mcause ≠ CAUSE_EXTERNAL_INTERRUPT) →
      run_delivered us (interrupt_handler t s) = some s2 →
        (∀ u ∈ us, u.mcause ≠ CAUSE_TIMER_INTERRUPT) ∧
        s2.work_timer = (interrupt_handler t s).work_timer ∧
        s2.work_timer = s.work_timer) := by
  refine ⟨?_, ?_, ?_⟩
  · intro t s ht hr
    have h := external_running t s ht hr
    exact ⟨h.2.2.2.2, h.1, h.2.1⟩
  · intro ts handler_addr mepc s hrun hp
    have hs := run_delivered_eq ts _ _ hrun
    have hg := timer_gate_run ts _ (timer_gate_post_init handler_addr mepc)
    rw [← hs] at hg
    refine ⟨hg.2 hp, ?_⟩
    intro u hu
    rw [deliverable, if_pos hu]
    exact hg.2 hp
  · intro ts handler_addr mepc s t us s2 _ hr ht hus hrun
    have h := external_running t s ht hr
    have hq := delivered_quiet us (interrupt_handler t s) s2 h.2.1 hus hrun
    exact ⟨hq.1, hq.2.1, hq.2.1.trans h.2.2.1⟩

theorem pause_stops_timer_witness :
    (uart_output (interrupt_handler external_trap (run_traps [timer_trap] (post_init 0 0)))
        = cstr "PAUSE" ∧
      (interrupt_handler external_trap
        (run_traps [timer_trap] (post_init 0 0))).current_state = STATE_PAUSED ∧
      timer_enabled (interrupt_handler external_trap
        (run_traps [timer_trap] (post_init 0 0))) = false) ∧
    run_delivered [timer_trap, external_trap, timer_trap] (post_init 0 0) = none ∧
    (run_traps [timer_trap, external_trap, ⟨CAUSE_ECALL, 1, 0⟩, ⟨3, 0, 0⟩]
        (post_init 0 0)).work_timer = 1 :=
  ⟨pause_stops_timer.1 external_trap (run_traps [timer_trap] (post_init 0 0))
      rfl (by decide),
   by decide,
   (pause_stops_timer.2.2 [timer_trap] 0 0 (run_traps [timer_trap] (post_init 0 0))
      external_trap [⟨CAUSE_ECALL, 1, 0⟩, ⟨3, 0, 0⟩]
      (run_traps [timer_trap, external_trap, ⟨CAUSE_ECALL, 1, 0⟩, ⟨3, 0, 0⟩] (post_init 0 0))
      (by decide) (by decide) rfl (by decide) (by decide)).2.2.trans (by decide)⟩

/-! ## C11 -/

/-- C11: resume. An external-interrupt trap taken in `STATE_PAUSED` sets
`STATE_RUNNING`, sets bit 7 of `mie`, leaves `work_timer` unchanged and appends
to the transmitted bytes exactly `"JOB "` and one byte `(work_timer + '0')
mod 256`, which for `work_timer ≤ 9` is the ASCII decimal digit of the work
count. -/
theorem resume_from_pause (t : Trap) (s : State)
    (ht : t.mcause = CAUSE_EXTERNAL_INTERRUPT) (hp : s.current_state = STATE_PAUSED) :
    (interrupt_handler t s).current_state = STATE_RUNNING ∧
    timer_enabled (interrupt_handler t s) = true ∧
    (interrupt_handler t s).work_timer = s.work_timer ∧
    uart_output (interrupt_handler t s)
      = uart_output s ++ cstr "JOB " ++ [(s.work_timer + 48) % 256] ∧
    (s.work_timer ≤ 9 → (s.work_timer + 48) % 256 = (Nat.digitChar s.work_timer).toNat) := by
  have h := external_paused t s ht hp
  exact ⟨h.1, h.2.1, h.2.2.1, external_paused_output t s ht hp, digit_byte s.work_timer⟩

theorem resume_from_pause_witness :
    (interrupt_handler external_trap
      (run_traps [timer_trap, timer_trap, external_trap] (post_init 0 0))).current_state
        = STATE_RUNNING ∧
    uart_output (interrupt_handler external_trap
      (run_traps [timer_trap, timer_trap, external_trap] (post_init 0 0)))
        = cstr "PAUSEJOB 2" :=
  ⟨(resume_from_pause external_trap
      (run_traps [timer_trap, timer_trap, external_trap] (post_init 0 0)) rfl (by decide)).1,
   (resume_from_pause external_trap
      (run_traps [timer_trap, timer_trap, external_trap] (post_init 0 0)) rfl
      (by decide)).2.2.2.1.trans (by decide)⟩

/-! ## C12 -/

/-- C12: self-shutdown at the threshold. From the start of the loop of
`main`, let a schedule of foreground iterations and timer traps contain five
timer traps, and let a sixth timer trap follow it. Up to there `main` has
issued no system call and `work_timer` is 6. The next foreground iteration
issues the terminate call (`a7 = 93`, `a0 = 0`) and nothing else; after it
`current_state` is `STATE_SHUTDOWN`, the transmitted bytes end with `"OFF 0"`
and the loop has not been left yet; the iteration after that leaves the loop
without changing the machine state. No iteration run while `work_timer < 6`
issues a system call. -/
theorem self_shutdown_at_threshold (handler_addr mepc : Nat) (pre : List Event) (t6 : Trap)
    (hpre : timer_only pre) (hcount : trap_count pre = 5)
    (ht6 : t6.mcause = CAUSE_TIMER_INTERRUPT) :
    (sys_run (pre ++ [Event.trap t6]) (main_start handler_addr mepc)).ecalls = [] ∧
    (sys_run (pre ++ [Event.trap t6]) (main_start handler_addr mepc)).st.work_timer = 6 ∧
    (sys_run (pre ++ [Event.trap t6, Event.iteration])
        (main_start handler_addr mepc)).ecalls = [exit_trap 0] ∧
    (sys_run (pre ++ [Event.trap t6, Event.iteration])
        (main_start handler_addr mepc)).st.current_state = STATE_SHUTDOWN ∧
    (∃ before, uart_output (sys_run (pre ++ [Event.trap t6, Event.iteration])
        (main_start handler_addr mepc)).st = before ++ cstr "OFF 0") ∧
    (sys_run (pre ++ [Event.trap t6, Event.iteration])
        (main_start handler_addr mepc)).left_loop = false ∧
    (sys_run (pre ++ [Event.trap t6, Event.iteration, Event.iteration])
        (main_start handler_addr mepc)).left_loop = true ∧
    (sys_run (pre ++ [Event.trap t6, Event.iteration, Event.iteration])
        (main_start handler_addr mepc)).st
      = (sys_run (pre ++ [Event.trap t6, Event.iteration])
          (main_start handler_addr mepc)).st ∧
    (∀ (s : State) (last : Nat), s.work_timer < 6 → (main_iteration s last).ecall = none) := by
  have h0 := main_start_fields handler_addr mepc
  have hrun := timer_only_run pre hpre (main_start handler_addr mepc) h0.1 rfl rfl
    (by rw [h0.2.1, hcount]; decide)
  rw [h0.2.1, hcount] at hrun
  -- the state after the five-trap schedule
  obtain ⟨y, hy⟩ : ∃ y, y = sys_run pre (main_start handler_addr mepc) := ⟨_, rfl⟩
  rw [← hy] at hrun
  -- the state after the sixth timer trap
  have hw6 : (interrupt_handler t6 y.st).work_timer = 6 := by
    rw [handler_timer t6 y.st ht6]
    show (y.st.work_timer + 1) % 2 ^ 32 = 6
    rw [hrun.2.1]; rfl
  have hc6 : (interrupt_handler t6 y.st).current_state = STATE_RUNNING := by
    rw [handler_timer t6 y.st ht6]; exact hrun.1
  have hit := iteration_running (interrupt_handler t6 y.st) y.last_work_time hc6
  have h6 : 6 ≤ (interrupt_handler t6 y.st).work_timer := by rw [hw6]
  simp only [if_pos h6] at hit
  have hA : sys_run (pre ++ [Event.trap t6]) (main_start handler_addr mepc)
      = { y with st := interrupt_handler t6 y.st } := by
    rw [sys_run_append, ← hy]; rfl
  have hB : sys_run (pre ++ [Event.trap t6, Event.iteration]) (main_start handler_addr mepc)
      = { st := (main_iteration (interrupt_handler t6 y.st) y.last_work_time).st,
          last_work_time :=
            (main_iteration (interrupt_handler t6 y.st) y.last_work_time).last_work_time,
          ecalls := y.ecalls
            ++ (main_iteration (interrupt_handler t6 y.st) y.last_work_time).ecall.toList,
          left_loop :=
            (main_iteration (interrupt_handler t6 y.st) y.last_work_time).left_loop } := by
    rw [sys_run_append, ← hy]
    simp [sys_run, sys_step, hrun.2.2.2]
  have hC : sys_run (pre ++ [Event.trap t6, Event.iteration, Event.iteration])
        (main_start handler_addr mepc)
      = sys_step Event.iteration
          (sys_run (pre ++ [Event.trap t6, Event.iteration]) (main_start handler_addr mepc)) := by
    rw [sys_run_append, sys_run_append]; rfl
  have hlast := iteration_shutdown
    (main_iteration (interrupt_handler t6 y.st) y.last_work_time).st
    (main_iteration (interrupt_handler t6 y.st) y.last_work_time).last_work_time
    hit.2.2.2.2.1
  refine ⟨?_, ?_, ?_, ?_, ?_, ?_, ?_, ?_, ?_⟩
  · rw [hA]; exact hrun.2.2.1
  · rw [hA]; exact hw6
  · rw [hB]
    show y.ecalls ++ _ = _
    rw [hrun.2.2.1, hit.2.2.2.2.2.1]; rfl
  · rw [hB]; exact hit.2.2.2.2.1
  · rw [hB]
    exact ⟨_, hit.2.2.2.2.2.2⟩
  · rw [hB]; exact hit.2.1
  · rw [hC, hB]
    simp [sys_step, hit.2.1, hlast]
  · rw [hC, hB]
    simp [sys_step, hit.2.1, hlast]
  · intro s last hlt
    cases hc : s.current_state with
    | STATE_RUNNING =>
      rw [(iteration_running s last hc).2.2.2.2.2.1, if_neg (by omega)]
    | STATE_PAUSED => rw [iteration_paused s last hc]
    | STATE_SHUTDOWN => rw [iteration_shutdown s last hc]

theorem self_shutdown_at_threshold_witness :
    (sys_run ([Event.trap timer_trap, Event.iteration, Event.trap timer_trap,
        Event.trap timer_trap, Event.iteration, Event.iteration, Event.trap timer_trap,
        Event.trap timer_trap] ++ [Event.trap timer_trap, Event.iteration])
      (main_start 0 0)).ecalls = [exit_trap 0] ∧
    uart_output (sys_run ([Event.trap timer_trap, Event.iteration, Event.trap timer_trap,
        Event.trap timer_trap, Event.iteration, Event.iteration, Event.trap timer_trap,
        Event.trap timer_trap] ++ [Event.trap timer_trap, Event.iteration])
      (main_start 0 0)).st = cstr "HELLOJOB 1JOB 3JOB 6OFF 0" :=
  ⟨(self_shutdown_at_threshold 0 0 [Event.trap timer_trap, Event.iteration,
      Event.trap timer_trap, Event.trap timer_trap, Event.iteration, Event.iteration,
      Event.trap timer_trap, Event.trap timer_trap] timer_trap
      (by
        intro e he
        simp only [List.mem_cons, List.mem_singleton, List.not_mem_nil, or_false] at he
        rcases he with h | h | h | h | h | h | h | h <;> subst h
        all_goals first
          | exact Or.inl rfl
          | exact Or.inr ⟨timer_trap, rfl, rfl⟩)
      (by decide) rfl).2.2.1,
   by decide⟩

/-! ## C13 -/

/-- C13: the scenario run. After `"HELLO"`, three timer traps and one
foreground iteration give the report `"JOB 3"`; an external trap gives
`"PAUSE"` and `STATE_PAUSED`; a second external trap gives `"JOB 3"` and
`STATE_RUNNING`; three more timer traps bring `work_timer` to 6; the next
iteration reports `"JOB 6"` and terminates itself with `"OFF 0"`, leaving
`STATE_SHUTDOWN`; one more iteration leaves the loop, with `work_timer = 6`,
`STATE_SHUTDOWN` and the transmitted bytes ending in `"OFF 0"`. -/
theorem scenario_run (handler_addr mepc : Nat) :
    uart_output (sys_run scenario_report (main_start handler_addr mepc)).st
      = cstr "HELLO" ++ cstr "JOB 3" ∧
    ((sys_run scenario_pause (main_start handler_addr mepc)).st.current_state = STATE_PAUSED ∧
      uart_output (sys_run scenario_pause (main_start handler_addr mepc)).st
        = cstr "HELLO" ++ cstr "JOB 3" ++ cstr "PAUSE") ∧
    ((sys_run scenario_resume (main_start handler_addr mepc)).st.current_state
        = STATE_RUNNING ∧
      uart_output (sys_run scenario_resume (main_start handler_addr mepc)).st
        = cstr "HELLO" ++ cstr "JOB 3" ++ cstr "PAUSE" ++ cstr "JOB 3") ∧
    (sys_run scenario_six (main_start handler_addr mepc)).st.work_timer = 6 ∧
    ((sys_run scenario_off (main_start handler_addr mepc)).st.current_state
        = STATE_SHUTDOWN ∧
      (sys_run scenario_off (main_start handler_addr mepc)).ecalls = [exit_trap 0] ∧
      uart_output (sys_run scenario_off (main_start handler_addr mepc)).st
        = cstr "HELLO" ++ cstr "JOB 3" ++ cstr "PAUSE" ++ cstr "JOB 3" ++ cstr "JOB 6"
          ++ cstr "OFF 0") ∧
    ((sys_run scenario (main_start handler_addr mepc)).left_loop = true ∧
      (sys_run scenario (main_start handler_addr mepc)).st.work_timer = 6 ∧
      (sys_run scenario (main_start handler_addr mepc)).st.current_state = STATE_SHUTDOWN ∧
      uart_output (sys_run scenario (main_start handler_addr mepc)).st
        = cstr "HELLO" ++ cstr "JOB 3" ++ cstr "PAUSE" ++ cstr "JOB 3" ++ cstr "JOB 6"
          ++ cstr "OFF 0") := by
  have e3 : cstr "JOB 3" = [74, 79, 66, 32, 51] := by decide
  have e6 : cstr "JOB 6" = [74, 79, 66, 32, 54] := by decide
  rw [e3, e6, cstr_HELLO, cstr_PAUSE, cstr_OFF0]
  refine ⟨?_, ⟨?_, ?_⟩, ⟨?_, ?_⟩, ?_, ⟨?_, ?_, ?_⟩, ⟨?_, ?_, ?_, ?_⟩⟩ <;>
    simp [scenario, scenario_off, scenario_six, scenario_resume, scenario_pause,
      scenario_report, sys_run, sys_step, main_start, main_iteration, interrupt_handler,
      handle_syscall, exit, exit_trap, uart_puts, uart_puts_loop, uart_putchar, cstr_HELLO,
      cstr_JOB, cstr_OFF, cstr_PAUSE, timer_trap, external_trap, init_interrupts, boot,
      uart_output, CAUSE_TIMER_INTERRUPT, CAUSE_EXTERNAL_INTERRUPT, CAUSE_ECALL, SYS_EXIT,
      UART_TX, UART_CLEAR, List.filter_cons]

/-! ## C14 -/

/-- C14: the foreground loop is an observer. One iteration never changes
`work_timer` or `mie`; it changes `current_state` only by the terminate call
(`a7 = 93`, `a0 = 0`), which it issues exactly when `current_state` is
`STATE_RUNNING` and `work_timer ≥ 6`; in `STATE_PAUSED` it changes nothing and
transmits nothing; in `STATE_RUNNING` it transmits a `"JOB "` report with the
byte `(work_timer + '0') mod 256` exactly when `work_timer` differs from the
last observed value (followed by `"OFF 0"` when it terminates), and afterwards
the last observed value is `work_timer`; an immediately repeated iteration
changes nothing in the machine state, so it transmits nothing. -/
theorem foreground_is_observer (s : State) (last : Nat) :
    (main_iteration s last).st.work_timer = s.work_timer ∧
    (main_iteration s last).st.mie = s.mie ∧
    (main_iteration s last).st.current_state
      = (if s.current_state = STATE_RUNNING ∧ 6 ≤ s.work_timer then STATE_SHUTDOWN
         else s.current_state) ∧
    (main_iteration s last).ecall
      = (if s.current_state = STATE_RUNNING ∧ 6 ≤ s.work_timer then some (exit_trap 0)
         else none) ∧
    (s.current_state = STATE_PAUSED →
      (main_iteration s last).st = s ∧ (main_iteration s last).last_work_time = last) ∧
    (s.current_state = STATE_RUNNING →
      uart_output (main_iteration s last).st
        = uart_output s
          ++ (if s.work_timer ≠ last then cstr "JOB " ++ [(s.work_timer + 48) % 256] else [])
          ++ (if 6 ≤ s.work_timer then cstr "OFF 0" else []) ∧
      (main_iteration s last).last_work_time = s.work_timer) ∧
    (main_iteration (main_iteration s last).st (main_iteration s last).last_work_time).st
      = (main_iteration s last).st := by
  cases hc : s.current_state with
  | STATE_RUNNING =>
    have h := iteration_running s last hc
    refine ⟨h.2.2.1, h.2.2.2.1, ?_, ?_, fun hp => absurd hp (by decide),
      fun _ => ⟨h.2.2.2.2.2.2, h.1⟩, ?_⟩
    · rw [h.2.2.2.2.1]
      by_cases h6 : 6 ≤ s.work_timer <;> simp [h6]
    · rw [h.2.2.2.2.2.1]
      by_cases h6 : 6 ≤ s.work_timer <;> simp [h6]
    · by_cases h6 : 6 ≤ s.work_timer
      · have hd : (main_iteration s last).st.current_state = STATE_SHUTDOWN := by
          rw [h.2.2.2.2.1, if_pos h6]
        rw [iteration_shutdown _ _ hd]
      · have hr : (main_iteration s last).st.current_state = STATE_RUNNING := by
          rw [h.2.2.2.2.1, if_neg h6]
        have hm : main_iteration (main_iteration s last).st
              (main_iteration s last).last_work_time
            = { st := (main_iteration s last).st,
                last_work_time := (main_iteration s last).last_work_time,
                ecall := none, left_loop := false } := by
          have hsame : ¬ (main_iteration s last).st.work_timer
              ≠ (main_iteration s last).last_work_time := by
            rw [h.1, h.2.2.1]; exact fun hne => hne rfl
          have hlow : ¬ (main_iteration s last).st.work_timer ≥ 6 := by
            rw [h.2.2.1]; exact h6
          generalize main_iteration s last = r at hr hsame hlow
          unfold main_iteration
          rw [if_pos hr, if_neg hsame, if_neg hlow]
        rw [hm]
  | STATE_PAUSED =>
    rw [iteration_paused s last hc]
    refine ⟨rfl, rfl, ?_, ?_, fun _ => ⟨rfl, rfl⟩, fun hr => absurd hr (by decide), ?_⟩
    · simp [hc]
    · simp [hc]
    · show (main_iteration s last).st = s
      rw [iteration_paused s last hc]
  | STATE_SHUTDOWN =>
    rw [iteration_shutdown s last hc]
    refine ⟨rfl, rfl, ?_, ?_, fun hp => absurd hp (by decide),
      fun hr => absurd hr (by decide), ?_⟩
    · simp [hc]
    · simp [hc]
    · show (main_iteration s last).st = s
      rw [iteration_shutdown s last hc]

theorem foreground_is_observer_witness :
    (main_iteration (run_traps [timer_trap, external_trap] (post_init 0 0)) 0).st
        = run_traps [timer_trap, external_trap] (post_init 0 0) ∧
    uart_output (main_iteration (run_traps [timer_trap, timer_trap] (post_init 0 0)) 1).st
        = cstr "JOB 2" :=
  ⟨((foreground_is_observer (run_traps [timer_trap, external_trap] (post_init 0 0)) 0).2.2.2.2.1
      (by decide)).1,
   ((foreground_is_observer (run_traps [timer_trap, timer_trap] (post_init 0 0)) 1).2.2.2.2.2.1
      (by decide)).1.trans (by decide)⟩

/-! ## C19 -/

/-- C19: interrupt-enable frame. One run of the handler leaves every bit of
the 32-bit `mie` other than bit 7 unchanged, and keeps `mie` within 32 bits;
hence bit 11 (external-interrupt enable) is set in every state reached from
the post-initialisation state by traps, and in every state the whole program
reaches from the start of its loop by traps and foreground iterations. -/
theorem mie_frame (t : Trap) (s : State) :
    (∀ i : Nat, i < 32 → i ≠ 7 →
      (interrupt_handler t s).mie.testBit i = s.mie.testBit i) ∧
    (s.mie < 2 ^ 32 → (interrupt_handler t s).mie < 2 ^ 32) ∧
    (∀ (ts : List Trap) (handler_addr mepc : Nat),
      (run_traps ts (post_init handler_addr mepc)).mie.testBit 11 = true) ∧
    (∀ (es : List Event) (handler_addr mepc : Nat),
      (sys_run es (main_start handler_addr mepc)).st.mie.testBit 11 = true) := by
  refine ⟨fun i hi h7 => handler_mie_bits t s i hi h7, ?_, ?_, ?_⟩
  · intro hlt
    by_cases h2 : t.mcause = CAUSE_EXTERNAL_INTERRUPT
    · rw [handler_external t s h2]
      cases hc : s.current_state with
      | STATE_RUNNING =>
        simp only [if_true]
        show clear_csr _ (1 <<< 7) < 2 ^ 32
        exact Nat.and_lt_two_pow _ (by decide)
      | STATE_PAUSED =>
        simp only [if_true, if_false, reduceCtorEq]
        show set_csr s.mie (1 <<< 7) < 2 ^ 32
        exact Nat.or_lt_two_pow hlt (by decide)
      | STATE_SHUTDOWN =>
        simp only [if_false, reduceCtorEq]
        exact hlt
    · rw [handler_mie_of_not_external t s h2]; exact hlt
  · intro ts handler_addr mepc
    rw [run_traps_mie_bits ts 11 (by decide) (by decide)]
    show Nat.testBit ((1 <<< 7) ||| (1 <<< 11)) 11 = true
    decide
  · intro es handler_addr mepc
    rw [sys_run_mie_bits es 11 (by decide) (by decide), (main_start_fields _ _).2.2.1]
    decide

theorem mie_frame_witness :
    (interrupt_handler external_trap (post_init 0 0)).mie.testBit 11 = true ∧
    (interrupt_handler external_trap (post_init 0 0)).mie < 2 ^ 32 :=
  ⟨((mie_frame external_trap (post_init 0 0)).1 11 (by decide) (by decide)).trans (by decide),
   (mie_frame external_trap (post_init 0 0)).2.1 (by decide)⟩

end Interrupt

namespace Morse

open Interrupt (cstr)

/-! ## Helper lemmas for the decoder -/

theorem cur_nil : cur [] = 0 := rfl

theorem cur_cons (c : Nat) (cs : List Nat) : cur (c :: cs) = c := rfl

theorem skip_spaces_cons (c : Nat) (cs : List Nat) :
    skip_spaces (c :: cs) = if c = 32 then skip_spaces cs else c :: cs := rfl

theorem count_spaces_cons (c : Nat) (cs : List Nat) :
    count_spaces (c :: cs) = if c = 32 then count_spaces cs + 1 else 0 := rfl

theorem extract_token_cons (room c : Nat) (cs : List Nat) :
    extract_token (room + 1) (c :: cs)
      = if c = 32 ∨ c = 0 then ([], c :: cs)
        else ((c :: (extract_token room cs).1), (extract_token room cs).2) := rfl

/-- Skipping spaces removes exactly the leading spaces. -/
theorem skip_spaces_length (str : List Nat) :
    (skip_spaces str).length + count_spaces str = str.length ∧
    my_strlen (skip_spaces str) + count_spaces str = my_strlen str := by
  induction str with
  | nil => exact ⟨rfl, rfl⟩
  | cons c cs ih =>
    rw [skip_spaces_cons, count_spaces_cons]
    by_cases h : c = 32
    · subst h
      simp only [if_true]
      refine ⟨by simp only [List.length_cons]; omega, ?_⟩
      show _ = if (32 : Nat) = 0 then 0 else my_strlen cs + 1
      rw [if_neg (by decide)]
      omega
    · simp only [if_neg h]
      exact ⟨rfl, rfl⟩

/-- After skipping, the string does not start with a space. -/
theorem cur_skip_spaces (str : List Nat) : cur (skip_spaces str) ≠ 32 := by
  induction str with
  | nil => decide
  | cons c cs ih =>
    rw [skip_spaces_cons]
    by_cases h : c = 32
    · rw [if_pos h]; exact ih
    · rw [if_neg h]; exact h

/-- Skipping spaces of a string that does not start with a space. -/
theorem skip_spaces_of_cur (str : List Nat) (h : cur str ≠ 32) : skip_spaces str = str := by
  cases str with
  | nil => rfl
  | cons c cs => rw [skip_spaces_cons, if_neg (show ¬ c = 32 from h)]

theorem skip_spaces_replicate (k : Nat) (str : List Nat) :
    skip_spaces (List.replicate k 32 ++ str) = skip_spaces str := by
  induction k with
  | zero => rfl
  | succ k ih =>
    rw [List.replicate_succ, List.cons_append, skip_spaces_cons, if_pos rfl, ih]

theorem count_spaces_replicate (k : Nat) (str : List Nat) :
    count_spaces (List.replicate k 32 ++ str) = k + count_spaces str := by
  induction k with
  | zero => simp
  | succ k ih =>
    rw [List.replicate_succ, List.cons_append, count_spaces_cons, if_pos rfl, ih]
    omega

theorem count_spaces_of_cur (str : List Nat) (h : cur str ≠ 32) : count_spaces str = 0 := by
  cases str with
  | nil => rfl
  | cons c cs => rw [count_spaces_cons, if_neg (show ¬ c = 32 from h)]

/-- The token loop splits the input: the token and the rest make up the
input, and the token holds no NUL. -/
theorem extract_token_length (room : Nat) :
    ∀ str : List Nat,
      (extract_token room str).1.length + (extract_token room str).2.length = str.length ∧
      (extract_token room str).1.length + my_strlen (extract_token room str).2
        = my_strlen str ∧
      (extract_token room str).1.length ≤ room := by
  induction room with
  | zero => intro str; simp [extract_token]
  | succ room ih =>
    intro str
    cases str with
    | nil => simp [extract_token, my_strlen]
    | cons c cs =>
      rw [extract_token_cons]
      by_cases h : c = 32 ∨ c = 0
      · rw [if_pos h]; simp
      · rw [if_neg h]
        have h0 : c ≠ 0 := fun h0 => h (Or.inr h0)
        have := ih cs
        refine ⟨by simp only [List.length_cons]; omega, ?_, by simp only [List.length_cons]; omega⟩
        show _ = if c = 0 then 0 else my_strlen cs + 1
        rw [if_neg h0]
        simp only [List.length_cons]; omega

/-- A token taken at a character that is neither a space nor NUL is not
empty. -/
theorem extract_token_ne_nil (room : Nat) (str : List Nat) (h32 : cur str ≠ 32)
    (h0 : cur str ≠ 0) : (extract_token (room + 1) str).1 ≠ [] := by
  cases str with
  | nil => exact absurd rfl h0
  | cons c cs =>
    rw [extract_token_cons, if_neg (by rintro (h | h); exact h32 h; exact h0 h)]
    exact List.cons_ne_nil _ _

/-- The token loop takes a whole token that fits and is followed by a space
or by the end of the string. -/
theorem extract_token_append (tok : List Nat) :
    ∀ (room : Nat) (tail : List Nat), tok.length ≤ room →
      (∀ c ∈ tok, c ≠ 32 ∧ c ≠ 0) → (cur tail = 32 ∨ cur tail = 0) →
      extract_token room (tok ++ tail) = (tok, tail) := by
  induction tok with
  | nil =>
    intro room tail _ _ ht
    cases room with
    | zero => rfl
    | succ room =>
      cases tail with
      | nil => rfl
      | cons c cs =>
        rw [List.nil_append, extract_token_cons, if_pos (show c = 32 ∨ c = 0 from ht)]
  | cons x tok ih =>
    intro room tail hlen hsym ht
    cases room with
    | zero => simp at hlen
    | succ room =>
      have hx := hsym x (List.mem_cons_self _ _)
      rw [List.cons_append, extract_token_cons,
        if_neg (by rintro (h | h); exact hx.1 h; exact hx.2 h),
        ih room tail (by simpa using hlen) (fun c hc => hsym c (List.mem_cons_of_mem _ hc)) ht]

theorem my_strlen_le (str : List Nat) : my_strlen str ≤ str.length := by
  induction str with
  | nil => exact le_refl _
  | cons c cs ih =>
    show (if c = 0 then 0 else my_strlen cs + 1) ≤ cs.length + 1
    split <;> omega

/-- The lookup loop returns `?` or the letter of one of the entries. -/
theorem morseToChar_loop_mem (es : List MorseCode) (morse : List Nat) :
    morseToChar_loop es morse = 63 ∨ ∃ e ∈ es, morseToChar_loop es morse = e.letter := by
  induction es with
  | nil => exact Or.inl rfl
  | cons e es ih =>
    show (if my_strcmp morse e.morse = 0 then e.letter else morseToChar_loop es morse) = 63 ∨
      ∃ e1 ∈ e :: es,
        (if my_strcmp morse e.morse = 0 then e.letter else morseToChar_loop es morse)
          = e1.letter
    by_cases h : my_strcmp morse e.morse = 0
    · rw [if_pos h]
      exact Or.inr ⟨e, List.mem_cons_self _ _, rfl⟩
    · rw [if_neg h]
      rcases ih with h1 | ⟨e1, he1, h1⟩
      · exact Or.inl h1
      · exact Or.inr ⟨e1, List.mem_cons_of_mem _ he1, h1⟩

theorem table_letters_range :
    ∀ e ∈ morseTable.take MORSE_TABLE_SIZE,
      (65 ≤ e.letter ∧ e.letter ≤ 90) ∨ (48 ≤ e.letter ∧ e.letter ≤ 57) := by
  decide

/-- Every character `morseToChar` returns is a letter, a digit or `?`. -/
theorem morseToChar_output (morse : List Nat) : output_char (morseToChar morse) := by
  rcases morseToChar_loop_mem (morseTable.take MORSE_TABLE_SIZE) morse with h | ⟨e, he, h⟩
  · exact Or.inr (Or.inr (Or.inr h))
  · have hr := table_letters_range e he
    unfold morseToChar
    rw [h]
    rcases hr with hr | hr
    · exact Or.inl hr
    · exact Or.inr (Or.inl hr)

/-- What a pass of the outer loop that does not end the loop has done. -/
theorem decode_step_some (inp rest written : List Nat)
    (h : decode_step inp = some (rest, written)) :
    cur inp ≠ 0 ∧ cur (skip_spaces inp) ≠ 0 ∧
    rest = (extract_token 7 (skip_spaces inp)).2 ∧
    (written = [32] ∨
      (written = [morseToChar (extract_token 7 (skip_spaces inp)).1, 32] ∧
        1 < count_spaces rest) ∨
      (written = [morseToChar (extract_token 7 (skip_spaces inp)).1] ∧
        ¬ 1 < count_spaces rest)) := by
  unfold decode_step at h
  by_cases h1 : cur inp = 0
  · rw [if_pos h1] at h; cases h
  · rw [if_neg h1] at h
    by_cases h2 : cur (skip_spaces inp) = 0
    · simp only [h2, if_true] at h; cases h
    · simp only [h2, if_false] at h
      refine ⟨h1, h2, ?_⟩
      by_cases h3 : cur (extract_token 7 (skip_spaces inp)).1 = '/'.toNat
      · rw [if_pos h3] at h
        cases h
        exact ⟨rfl, Or.inl rfl⟩
      · rw [if_neg h3] at h
        by_cases h4 : count_spaces (extract_token 7 (skip_spaces inp)).2 > 1
        · rw [if_pos h4] at h
          cases h
          exact ⟨rfl, Or.inr (Or.inl ⟨rfl, h4⟩)⟩
        · rw [if_neg h4] at h
          cases h
          exact ⟨rfl, Or.inr (Or.inr ⟨rfl, h4⟩)⟩

/-- A pass that does not end the loop consumes at least one character, writes
no more than it can pay for, and writes only output characters. -/
theorem decode_step_progress (inp rest written : List Nat)
    (h : decode_step inp = some (rest, written)) :
    rest.length < inp.length ∧
    (extract_token 7 (skip_spaces inp)).1 ≠ [] ∧
    written.length + my_strlen rest + pending_space inp
      ≤ my_strlen inp + pending_space rest ∧
    (∀ c ∈ written, output_char c) := by
  obtain ⟨_, h2, hrest, hw⟩ := decode_step_some inp rest written h
  have hsk := skip_spaces_length inp
  have hex := extract_token_length 7 (skip_spaces inp)
  have hne := extract_token_ne_nil 6 (skip_spaces inp) (cur_skip_spaces inp) h2
  have hpos : 1 ≤ (extract_token 7 (skip_spaces inp)).1.length :=
    List.length_pos.mpr hne
  rw [← hrest] at hex
  have hsp : output_char 32 := Or.inr (Or.inr (Or.inl rfl))
  refine ⟨by omega, hne, ?_, ?_⟩
  · unfold pending_space
    rcases hw with hw | ⟨hw, hc⟩ | ⟨hw, hc⟩
    · subst hw
      simp only [List.length_singleton]
      split <;> split <;> omega
    · subst hw
      simp only [List.length_cons, List.length_nil]
      rw [if_pos hc]
      split <;> omega
    · subst hw
      simp only [List.length_singleton]
      rw [if_neg hc]
      split <;> omega
  · rcases hw with hw | ⟨hw, _⟩ | ⟨hw, _⟩
    · subst hw
      intro c hc
      rw [List.mem_singleton.mp hc]; exact hsp
    · subst hw
      intro c hc
      rcases List.mem_cons.mp hc with rfl | hc1
      · exact morseToChar_output _
      · rw [List.mem_singleton.mp hc1]; exact hsp
    · subst hw
      intro c hc
      rw [List.mem_singleton.mp hc]; exact morseToChar_output _

theorem decode_loop_succ (fuel : Nat) (inp out : List Nat) :
    decode_loop (fuel + 1) inp out
      = match decode_step inp with
        | none => some out
        | some (rest, written) => decode_loop fuel rest (out ++ written) := rfl

/-- With more passes allowed than the input has characters, the loop ends. -/
theorem decode_loop_total (fuel : Nat) :
    ∀ inp out : List Nat, inp.length < fuel → ∃ res, decode_loop fuel inp out = some res := by
  induction fuel with
  | zero => intro inp out h; omega
  | succ fuel ih =>
    intro inp out hlt
    rw [decode_loop_succ]
    cases hstep : decode_step inp with
    | none => exact ⟨out, rfl⟩
    | some p =>
      obtain ⟨rest, written⟩ := p
      have hp := (decode_step_progress inp rest written hstep).1
      exact ih rest (out ++ written) (by omega)

/-- A result of the loop does not depend on the passes left over. -/
theorem decode_loop_mono (fuel : Nat) :
    ∀ (inp out res : List Nat), decode_loop fuel inp out = some res →
      ∀ more : Nat, decode_loop (fuel + more) inp out = some res := by
  induction fuel with
  | zero => intro inp out res h; cases h
  | succ fuel ih =>
    intro inp out res h more
    rw [show fuel + 1 + more = (fuel + more) + 1 by omega, decode_loop_succ]
    rw [decode_loop_succ] at h
    cases hstep : decode_step inp with
    | none => rw [hstep] at h; exact h
    | some p =>
      obtain ⟨rest, written⟩ := p
      rw [hstep] at h
      exact ih rest (out ++ written) res h more

/-- What the loop has written when it ends: it extends `out` by output
characters, no more of them than the input has characters. -/
theorem decode_loop_bound (fuel : Nat) :
    ∀ (inp out res : List Nat), decode_loop fuel inp out = some res →
      ∃ w, res = out ++ w ∧ w.length + pending_space inp ≤ my_strlen inp ∧
        ∀ c ∈ w, output_char c := by
  induction fuel with
  | zero => intro inp out res h; cases h
  | succ fuel ih =>
    intro inp out res h
    rw [decode_loop_succ] at h
    cases hstep : decode_step inp with
    | none =>
      rw [hstep] at h
      cases h
      refine ⟨[], (List.append_nil _).symm, ?_, fun c hc => absurd hc (List.not_mem_nil c)⟩
      unfold decode_step at hstep
      by_cases h1 : cur inp = 0
      · have : count_spaces inp = 0 :=
          count_spaces_of_cur inp (by rw [h1]; decide)
        unfold pending_space
        rw [this]; simp
      · rw [if_neg h1] at hstep
        have hsk := skip_spaces_length inp
        unfold pending_space
        simp only [List.length_nil]
        split <;> omega
    | some p =>
      obtain ⟨rest, written⟩ := p
      rw [hstep] at h
      obtain ⟨w, hw, hlen, hch⟩ := ih rest (out ++ written) res h
      have hp := decode_step_progress inp rest written hstep
      refine ⟨written ++ w, by rw [hw, List.append_assoc], ?_, ?_⟩
      · rw [List.length_append]
        have := hp.2.2.1
        omega
      · intro c hc
        rcases List.mem_append.mp hc with hc | hc
        · exact hp.2.2.2 c hc
        · exact hch c hc

theorem str_content_nil : str_content [] = [] := rfl

theorem str_content_cons (c : Nat) (cs : List Nat) :
    str_content (c :: cs) = if c = 0 then [] else c :: str_content cs := by
  unfold str_content
  by_cases h : c = 0
  · simp [List.takeWhile_cons, h]
  · simp [List.takeWhile_cons, h]

theorem str_content_of_cur_zero (str : List Nat) (h : cur str = 0) : str_content str = [] := by
  cases str with
  | nil => rfl
  | cons c cs => rw [str_content_cons, if_pos (show c = 0 from h)]

theorem my_strcmp_cons (c1 : Nat) (p1 str2 : List Nat) :
    my_strcmp (c1 :: p1) str2
      = if c1 ≠ cur str2 then (c1 : Int) - (cur str2 : Int)
        else if c1 = 0 then 0
        else my_strcmp p1 str2.tail := rfl

/-- Strings that `my_strcmp` finds equal have the same characters. -/
theorem my_strcmp_zero (str1 : List Nat) :
    ∀ str2 : List Nat, my_strcmp str1 str2 = 0 → str_content str1 = str_content str2 := by
  induction str1 with
  | nil =>
    intro str2 h
    have h0 : cur str2 = 0 := by
      by_contra hne
      have hd : my_strcmp [] str2 = (0 : Int) - (cur str2 : Int) := by
        show (if (0 : Nat) ≠ cur str2 then (0 : Int) - (cur str2 : Int) else 0) = _
        rw [if_pos (fun h0 => hne h0.symm)]
      rw [hd] at h
      omega
    rw [str_content_nil, str_content_of_cur_zero str2 h0]
  | cons c p ih =>
    intro str2 h
    rw [my_strcmp_cons] at h
    by_cases hne : c ≠ cur str2
    · rw [if_pos hne] at h
      exact absurd (by omega : c = cur str2) hne
    · have heq : c = cur str2 := not_not.mp hne
      rw [if_neg hne] at h
      by_cases h0 : c = 0
      · rw [str_content_cons, if_pos h0, str_content_of_cur_zero str2 (heq ▸ h0)]
      · rw [if_neg h0] at h
        cases str2 with
        | nil => exact absurd heq h0
        | cons d q =>
          have hd : c = d := heq
          subst hd
          rw [str_content_cons, str_content_cons, if_neg h0, ih q h, if_neg h0]

/-- The lookup loop returns `?` when the string matches no entry. -/
theorem morseToChar_loop_miss (es : List MorseCode) (morse : List Nat)
    (h : ∀ e ∈ es, str_content morse ≠ str_content e.morse) :
    morseToChar_loop es morse = 63 := by
  induction es with
  | nil => rfl
  | cons e es ih =>
    show (if my_strcmp morse e.morse = 0 then e.letter else morseToChar_loop es morse) = 63
    rw [if_neg (fun h0 => h e (List.mem_cons_self _ _) (my_strcmp_zero morse e.morse h0))]
    exact ih (fun e1 he1 => h e1 (List.mem_cons_of_mem _ he1))

theorem table_codes_content :
    ∀ e ∈ morseTable.take MORSE_TABLE_SIZE, e ∈ morseTable ∧ str_content e.morse = e.morse := by
  decide

theorem decodes_stop (inp out : List Nat) (h : decode_step inp = none) :
    Decodes inp out out :=
  ⟨1, by rw [decode_loop_succ, h]⟩

theorem decodes_step (inp rest written out res : List Nat)
    (h : decode_step inp = some (rest, written)) (hrest : Decodes rest (out ++ written) res) :
    Decodes inp out res := by
  obtain ⟨fuel, hf⟩ := hrest
  exact ⟨fuel + 1, by rw [decode_loop_succ, h]; exact hf⟩

/-- A run of the loop that ends gives the result of `decode_morse_message`. -/
theorem decodes_message (input res : List Nat) (h : Decodes input [] res) :
    decode_morse_message input = some (res ++ [0]) := by
  obtain ⟨fuel, hf⟩ := h
  obtain ⟨res1, h1⟩ := decode_loop_total (input.length + 1) input [] (by omega)
  have ha := decode_loop_mono fuel input [] res hf (input.length + 1)
  have hb := decode_loop_mono (input.length + 1) input [] res1 h1 fuel
  rw [Nat.add_comm] at hb
  rw [ha] at hb
  cases hb
  unfold decode_morse_message
  rw [h1]; rfl

/-- One pass of the loop over leading spaces and a token that is followed by
a space or by the end of the string. -/
theorem decode_step_token (k : Nat) (tok tail : List Nat) (hne : tok ≠ [])
    (hlen : tok.length ≤ 7) (hsym : ∀ c ∈ tok, c ≠ 32 ∧ c ≠ 0)
    (ht : cur tail = 32 ∨ cur tail = 0) :
    decode_step (List.replicate k 32 ++ tok ++ tail)
      = some (tail,
          if cur tok = 47 then [32]
          else if 1 < count_spaces tail then [morseToChar tok, 32]
          else [morseToChar tok]) := by
  obtain ⟨x, t, rfl⟩ := List.exists_cons_of_ne_nil hne
  have hx := hsym x (List.mem_cons_self _ _)
  have hcur : cur (List.replicate k 32 ++ (x :: t) ++ tail) ≠ 0 := by
    cases k with
    | zero => exact hx.2
    | succ k => exact (by decide : (32 : Nat) ≠ 0)
  have hskip : skip_spaces (List.replicate k 32 ++ (x :: t) ++ tail) = (x :: t) ++ tail := by
    rw [List.append_assoc, skip_spaces_replicate]
    exact skip_spaces_of_cur _ hx.1
  have hcur2 : cur ((x :: t) ++ tail) ≠ 0 := hx.2
  have htok := extract_token_append (x :: t) 7 tail hlen hsym ht
  unfold decode_step
  rw [if_neg hcur]
  simp only [hskip, htok]
  rw [if_neg hcur2]
  show (if cur (x :: t) = 47 then some (tail, [32])
      else if 1 < count_spaces tail then some (tail, [morseToChar (x :: t), 32])
      else some (tail, [morseToChar (x :: t)])) = _
  by_cases h47 : cur (x :: t) = 47
  · rw [if_pos h47, if_pos h47]
  · rw [if_neg h47, if_neg h47]
    by_cases hsp : 1 < count_spaces tail
    · rw [if_pos hsp, if_pos hsp]
    · rw [if_neg hsp, if_neg hsp]

theorem code_of_facts :
    ∀ c ∈ table_letters, code_of c ≠ [] ∧ (code_of c).length ≤ 5 ∧
      (∀ x ∈ code_of c, x = 46 ∨ x = 45) ∧ morseToChar (code_of c) = c := by
  decide

theorem codes_cons_cons (c d : Nat) (w : List Nat) :
    codes (c :: d :: w) = code_of c ++ 32 :: codes (d :: w) := rfl

/-- The codes of a non-empty word start with a dot or a dash. -/
theorem codes_head (w : List Nat) (hw : w ≠ []) (hl : ∀ c ∈ w, c ∈ table_letters)
    (tail : List Nat) : cur (codes w ++ tail) = 46 ∨ cur (codes w ++ tail) = 45 := by
  obtain ⟨c, w1, rfl⟩ := List.exists_cons_of_ne_nil hw
  have hc := code_of_facts c (hl c (List.mem_cons_self _ _))
  obtain ⟨x, t, hxt⟩ := List.exists_cons_of_ne_nil hc.1
  have hx : x = 46 ∨ x = 45 := hc.2.2.1 x (by rw [hxt]; exact List.mem_cons_self _ _)
  cases w1 with
  | nil =>
    show cur (code_of c ++ tail) = 46 ∨ cur (code_of c ++ tail) = 45
    rw [hxt]; exact hx
  | cons d w2 =>
    rw [codes_cons_cons, hxt]; exact hx

/-- The loop over leading spaces, the codes of a non-empty word and what
follows them writes the word, and a space when two or more spaces follow. -/
theorem decodes_word (w : List Nat) :
    w ≠ [] → (∀ c ∈ w, c ∈ table_letters) →
    ∀ (k : Nat) (tail out res : List Nat), (cur tail = 32 ∨ cur tail = 0) →
      Decodes tail (out ++ w ++ (if 1 < count_spaces tail then [32] else [])) res →
      Decodes (List.replicate k 32 ++ codes w ++ tail) out res := by
  induction w with
  | nil => intro h; exact absurd rfl h
  | cons c w ih =>
    intro _ hl k tail out res ht hrest
    have hc := code_of_facts c (hl c (List.mem_cons_self _ _))
    have hsym : ∀ x ∈ code_of c, x ≠ 32 ∧ x ≠ 0 := by
      intro x hx
      rcases hc.2.2.1 x hx with h | h <;> subst h <;> decide
    have h47 : cur (code_of c) ≠ 47 := by
      obtain ⟨x, t, hxt⟩ := List.exists_cons_of_ne_nil hc.1
      have hx : x = 46 ∨ x = 45 := hc.2.2.1 x (by rw [hxt]; exact List.mem_cons_self _ _)
      rw [hxt]
      rcases hx with h | h
      · subst h; exact (by decide : (46 : Nat) ≠ 47)
      · subst h; exact (by decide : (45 : Nat) ≠ 47)
    cases w with
    | nil =>
      have hstep := decode_step_token k (code_of c) tail hc.1 (by omega) hsym ht
      rw [if_neg h47, hc.2.2.2] at hstep
      refine decodes_step _ tail _ out res hstep ?_
      by_cases hsp : 1 < count_spaces tail
      · rw [if_pos hsp] at hrest ⊢
        simpa [List.append_assoc] using hrest
      · rw [if_neg hsp] at hrest ⊢
        simpa [List.append_assoc] using hrest
    | cons d w1 =>
      have hl1 : ∀ x ∈ d :: w1, x ∈ table_letters :=
        fun x hx => hl x (List.mem_cons_of_mem _ hx)
      have hhead := codes_head (d :: w1) (List.cons_ne_nil _ _) hl1 tail
      have hcount : count_spaces (32 :: (codes (d :: w1) ++ tail)) = 1 := by
        rw [count_spaces_cons, if_pos rfl, count_spaces_of_cur]
        rcases hhead with h | h <;> rw [h] <;> decide
      have hstep := decode_step_token k (code_of c) (32 :: (codes (d :: w1) ++ tail))
        hc.1 (by omega) hsym (Or.inl rfl)
      rw [if_neg h47, hcount, if_neg (by decide), hc.2.2.2] at hstep
      have hin : List.replicate k 32 ++ codes (c :: d :: w1) ++ tail
          = List.replicate k 32 ++ code_of c ++ 32 :: (codes (d :: w1) ++ tail) := by
        rw [codes_cons_cons]
        simp [List.append_assoc]
      rw [hin]
      refine decodes_step _ _ _ out res hstep ?_
      have hnext := ih (List.cons_ne_nil _ _) hl1 1 tail (out ++ [c]) res ht
        (by simpa [List.append_assoc] using hrest)
      simpa [List.replicate, List.append_assoc] using hnext

/-! ## C15 -/

/-- C15: `decode_morse_message` is a total function of its input. For every
input string it returns (the loop ends within `length + 1` passes, and more
passes allowed give the same result); every pass of its outer loop that does
not end the loop leaves strictly fewer input characters and extracts a
non-empty token. -/
theorem decode_terminates (input : List Nat) :
    (∃ out, decode_morse_message input = some out) ∧
    (∀ fuel : Nat, input.length < fuel →
      decode_loop fuel input [] = decode_loop (input.length + 1) input []) ∧
    (∀ inp rest written : List Nat, decode_step inp = some (rest, written) →
      rest.length < inp.length ∧ (extract_token 7 (skip_spaces inp)).1 ≠ []) := by
  obtain ⟨res, hres⟩ := decode_loop_total (input.length + 1) input [] (by omega)
  refine ⟨⟨res ++ [0], ?_⟩, ?_, ?_⟩
  · unfold decode_morse_message
    rw [hres]; rfl
  · intro fuel hf
    have hm := decode_loop_mono (input.length + 1) input [] res hres
      (fuel - (input.length + 1))
    rw [show input.length + 1 + (fuel - (input.length + 1)) = fuel by omega] at hm
    rw [hm, hres]
  · intro inp rest written h
    have hp := decode_step_progress inp rest written h
    exact ⟨hp.1, hp.2.1⟩

theorem decode_terminates_witness :
    decode_loop 100 morse_input [] = some (cstr "HELLO") ∧
    ((cstr " .-.. ---").length < (cstr ".-.. .-.. ---").length ∧
      (extract_token 7 (skip_spaces (cstr ".-.. .-.. ---"))).1 ≠ []) :=
  ⟨((decode_terminates morse_input).2.1 100 (by decide)).trans (by decide),
   (decode_terminates morse_input).2.2 (cstr ".-.. .-.. ---") (cstr " .-.. ---") [76]
     (by decide)⟩

/-! ## C16 -/

/-- C16: Morse round trip. For every string `s` over the 36 table characters
(the empty string included), `decode_morse_message` applied to the codes of
the characters of `s`, in order and separated by single spaces, writes
exactly `s` followed by the terminating NUL. -/
theorem morse_round_trip (s : List Nat) (hs : ∀ c ∈ s, c ∈ table_letters) :
    decode_morse_message (codes s) = some (s ++ [0]) := by
  by_cases hnil : s = []
  · subst hnil; decide
  · refine decodes_message (codes s) s ?_
    have h := decodes_word s hnil hs 0 [] [] s (Or.inr rfl)
      (by
        have h0 : ¬ 1 < count_spaces [] := by decide
        rw [if_neg h0, List.append_nil, List.nil_append]
        exact decodes_stop [] s rfl)
    simpa using h

theorem morse_round_trip_witness :
    codes (cstr "HELLO") = cstr ".... . .-.. .-.. ---" ∧
    decode_morse_message (codes (cstr "HELLO")) = some (cstr "HELLO" ++ [0]) ∧
    decode_morse_message morse_input = some (cstr "HELLO" ++ [0]) :=
  ⟨by decide, morse_round_trip (cstr "HELLO") (by decide), by decide⟩

/-! ## C17 -/

/-- C17: word separators. For non-empty words `w1`, `w2` over the table
characters, decoding the codes of `w1`, a separator and the codes of `w2`
writes `w1`, one space and `w2` when the separator is `" / "` and when it is
a run of two or more spaces; with a single space as separator it writes `w1`
directly followed by `w2`. -/
theorem word_separators (w1 w2 : List Nat) (h1 : w1 ≠ []) (h2 : w2 ≠ [])
    (hl1 : ∀ c ∈ w1, c ∈ table_letters) (hl2 : ∀ c ∈ w2, c ∈ table_letters) :
    decode_morse_message (codes w1 ++ cstr " / " ++ codes w2)
      = some (w1 ++ [32] ++ w2 ++ [0]) ∧
    (∀ n : Nat, 2 ≤ n →
      decode_morse_message (codes w1 ++ List.replicate n 32 ++ codes w2)
        = some (w1 ++ [32] ++ w2 ++ [0])) ∧
    decode_morse_message (codes w1 ++ [32] ++ codes w2) = some (w1 ++ w2 ++ [0]) := by
  have hnone : ¬ 1 < count_spaces [] := by decide
  -- the second word, after `k` spaces and with `out` already written
  have hsecond : ∀ (k : Nat) (out : List Nat),
      Decodes (List.replicate k 32 ++ codes w2) out (out ++ w2) := by
    intro k out
    have h := decodes_word w2 h2 hl2 k [] out (out ++ w2) (Or.inr rfl)
      (by rw [if_neg hnone, List.append_nil]; exact decodes_stop [] _ rfl)
    simpa using h
  have hw2 : count_spaces (codes w2) = 0 := by
    have hh := codes_head w2 h2 hl2 []
    rw [List.append_nil] at hh
    apply count_spaces_of_cur
    rcases hh with h | h <;> rw [h] <;> decide
  refine ⟨?_, ?_, ?_⟩
  · refine decodes_message _ _ ?_
    have hsep : cstr " / " = [32, 47, 32] := by decide
    have hcount : count_spaces (32 :: 47 :: 32 :: codes w2) = 1 := by
      rw [count_spaces_cons, if_pos rfl, count_spaces_cons, if_neg (by decide)]
    have hslash := decode_step_token 1 [47] (32 :: codes w2) (List.cons_ne_nil _ _)
      (by decide) (by decide) (Or.inl rfl)
    rw [if_pos (show cur [47] = 47 from rfl)] at hslash
    have hfirst := decodes_word w1 h1 hl1 0 (32 :: 47 :: 32 :: codes w2) []
      (w1 ++ [32] ++ w2) (Or.inl rfl)
      (by
        rw [hcount, if_neg (by decide), List.append_nil, List.nil_append]
        refine decodes_step (32 :: 47 :: 32 :: codes w2) (32 :: codes w2) [32] w1 _ hslash ?_
        exact hsecond 1 (w1 ++ [32]))
    rw [hsep]
    simpa [List.append_assoc] using hfirst
  · intro n hn
    refine decodes_message _ _ ?_
    obtain ⟨m, rfl⟩ : ∃ m, n = m + 1 := ⟨n - 1, by omega⟩
    have hcount : count_spaces (List.replicate (m + 1) 32 ++ codes w2) = m + 1 := by
      rw [count_spaces_replicate, hw2]
    have hfirst := decodes_word w1 h1 hl1 0 (List.replicate (m + 1) 32 ++ codes w2) []
      (w1 ++ [32] ++ w2) (Or.inl (by rw [List.replicate_succ]; rfl))
      (by
        rw [hcount, if_pos (by omega), List.nil_append]
        exact hsecond (m + 1) (w1 ++ [32]))
    simpa [List.append_assoc] using hfirst
  · refine decodes_message _ _ ?_
    have hcount : count_spaces (32 :: codes w2) = 1 := by
      rw [count_spaces_cons, if_pos rfl, hw2]
    have hfirst := decodes_word w1 h1 hl1 0 (32 :: codes w2) [] (w1 ++ w2) (Or.inl rfl)
      (by
        rw [hcount, if_neg (by decide), List.append_nil, List.nil_append]
        exact hsecond 1 w1)
    simpa [List.append_assoc] using hfirst

theorem word_separators_witness :
    decode_morse_message (cstr "... --- ... / .---- ..---") = some (cstr "SOS 12" ++ [0]) ∧
    decode_morse_message (cstr "... --- ...   .---- ..---") = some (cstr "SOS 12" ++ [0]) ∧
    decode_morse_message (cstr "... --- ... .---- ..---") = some (cstr "SOS12" ++ [0]) :=
  ⟨(word_separators (cstr "SOS") (cstr "12") (by decide) (by decide) (by decide)
      (by decide)).1,
   (word_separators (cstr "SOS") (cstr "12") (by decide) (by decide) (by decide)
      (by decide)).2.1 3 (by decide),
   (word_separators (cstr "SOS") (cstr "12") (by decide) (by decide) (by decide)
      (by decide)).2.2⟩

/-! ## C18 -/

/-- C18: output bound. For every input string `decode_morse_message` writes
some characters and then the terminating NUL; the number of characters before
the NUL is at most `my_strlen` of the input (which is at most the length of
the list), so `strlen(input) + 1` bytes of output are enough; and every
character before the NUL is one of `A`-`Z`, `0`-`9`, a space or `?`. -/
theorem decode_output_bound (input : List Nat) :
    ∃ body : List Nat, decode_morse_message input = some (body ++ [0]) ∧
      body.length ≤ my_strlen input ∧ my_strlen input ≤ input.length ∧
      (body ++ [0]).length ≤ my_strlen input + 1 ∧
      ∀ c ∈ body, output_char c := by
  obtain ⟨res, hres⟩ := decode_loop_total (input.length + 1) input [] (by omega)
  obtain ⟨w, hw, hlen, hch⟩ := decode_loop_bound _ input [] res hres
  rw [List.nil_append] at hw
  subst hw
  refine ⟨res, ?_, by omega, my_strlen_le input, ?_, hch⟩
  · unfold decode_morse_message
    rw [hres]; rfl
  · rw [List.length_append, List.length_singleton]; omega

/-! ## C20 -/

/-- C20: `morseToChar` is a correct table lookup. The 36 codes of
`morseTable` are pairwise distinct, each has at most 5 symbols and no NUL;
for every entry, `morseToChar` of its code is its letter; and for every string
whose characters are not those of any table code, `morseToChar` returns `?`. -/
theorem morseToChar_lookup :
    (morseTable.map MorseCode.morse).Nodup ∧
    morseTable.length = MORSE_TABLE_SIZE ∧
    (∀ e ∈ morseTable, e.morse.length ≤ 5 ∧ 0 ∉ e.morse) ∧
    (∀ e ∈ morseTable, morseToChar e.morse = e.letter) ∧
    (∀ str : List Nat, (∀ e ∈ morseTable, str_content str ≠ e.morse) →
      morseToChar str = '?'.toNat) := by
  refine ⟨by decide, by decide, by decide, by decide, ?_⟩
  intro str h
  refine morseToChar_loop_miss _ str ?_
  intro e he
  have ht := table_codes_content e he
  rw [ht.2]
  exact h e ht.1

theorem morseToChar_lookup_witness :
    morseToChar (cstr "......") = '?'.toNat ∧ morseToChar (cstr "") = '?'.toNat :=
  ⟨morseToChar_lookup.2.2.2.2 (cstr "......") (by decide),
   morseToChar_lookup.2.2.2.2 (cstr "") (by decide)⟩

end Morse
